import Mathlib

/-!
Verification of the Geometry & Topology Store and the compact sub-entity
identity encoding of the plasticity repository.

The first section embeds the static encoding functions of `GPUPicker`
(`compactTopologyId` and `extract`).  JavaScript bitwise operators coerce
their operands to 32-bit two's-complement integers; we model a JS number
that is known to be a non-negative integral bit pattern as a `Nat` reduced
modulo `2 ^ 32`, and model the signed right shift `>> 16` of `extract` by
interpreting the pattern as a signed 32-bit value (`asInt32`) and taking
the euclidean quotient by `2 ^ 16`, which agrees with the arithmetic shift.
-/

/-- Sub-entity kind tag, the `'edge' | 'face'` union of the source. -/
inductive TopoKind where
  | edge
  | face
deriving DecidableEq, Repr

namespace GPUPicker

/-- Result record of `GPUPicker.extract`: `{ parentId, type, index }`.
`parentId` is signed because `compact >> 16` is an arithmetic shift of an
`int32` in JavaScript. -/
structure Extracted where
  parentId : Int
  type : Nat
  index : Nat
deriving DecidableEq, Repr

/-- Signed 32-bit reinterpretation of a bit pattern (JavaScript `ToInt32`). -/
def asInt32 (bits : Nat) : Int :=
  if bits % 2 ^ 32 < 2 ^ 31 then ((bits % 2 ^ 32 : Nat) : Int)
  else ((bits % 2 ^ 32 : Nat) : Int) - 2 ^ 32

/-- Embedding of `GPUPicker.compactTopologyId(type, parentId, index)`.
`parentId <<= 16` coerces to int32, modelled by `% 2 ^ 32` on the bit
pattern; the `|` chains of the source are `Nat.lor` on patterns.  The two
guards are the source's `> (1 << 16)` and `> (1 << 15)` checks (note:
strict, so the boundary values `2 ^ 16` and `2 ^ 15` are accepted). -/
def compactTopologyId (type : TopoKind) (parentId index : Nat) :
    Except String Nat :=
  if parentId > 2 ^ 16 then .error "precondition failure"
  else if index > 2 ^ 15 then .error "precondition failure"
  else
    let parentBits := parentId * 2 ^ 16 % 2 ^ 32
    let c := (if type = TopoKind.edge then 0 else 1) * 2 ^ 7
    let d := c ||| (index / 2 ^ 8 &&& 0xef)
    let e := index &&& 255
    .ok (parentBits ||| (d * 2 ^ 8 ||| e))

/-- Embedding of `GPUPicker.extract(compact)`: `compact >> 16` is a signed
shift of the int32 pattern; `compact &= 0xffff` keeps the low 16 bits;
`compact >> 15` and `compact &= 0x7fff` split kind bit and index. -/
def extract (compact : Nat) : Extracted :=
  let parentId := (asInt32 compact).ediv (2 ^ 16)
  let low := compact % 2 ^ 32 % 2 ^ 16
  let type := low / 2 ^ 15
  let index := low % 2 ^ 15
  ⟨parentId, type, index⟩

/-- Numeric value of the kind bit used by the encoder (edge = 0, face = 1). -/
def kindBit (type : TopoKind) : Nat :=
  if type = TopoKind.edge then 0 else 1

end GPUPicker

section BitLemmas

/-- Composing a part shifted up by `i` bits with a low part below `2 ^ i`
by bitwise or is plain addition: the bit ranges are disjoint. -/
theorem lor_shifted (i a b : Nat) (hb : b < 2 ^ i) :
    (2 ^ i * a) ||| b = 2 ^ i * a + b := by
  apply Nat.eq_of_testBit_eq
  intro j
  rw [Nat.testBit_lor, Nat.testBit_mul_pow_two_add a hb j, Nat.testBit_mul_pow_two]
  by_cases hj : j < i
  · simp [hj, Nat.not_le_of_lt hj]
  · have hi : i ≤ j := Nat.le_of_not_lt hj
    have hbf : b.testBit j = false :=
      Nat.testBit_lt_two_pow (lt_of_lt_of_le hb (Nat.pow_le_pow_right (by norm_num) hi))
    simp [hj, hi, hbf]

/-- Masking with `0xef` is the identity on 7-bit values whose bit 4 is clear. -/
theorem and_ef_of_bit4_clear (h : Nat) (hlt : h < 2 ^ 7) (h4 : h / 2 ^ 4 % 2 = 0) :
    h &&& 0xef = h := by
  revert h4
  revert hlt
  revert h
  decide

/-- Specialization of `lor_shifted` to the byte boundary. -/
theorem lor256 (d e : Nat) (he : e < 256) : 256 * d ||| e = 256 * d + e :=
  lor_shifted 8 d e he

/-- Specialization of `lor_shifted` to the 16-bit boundary. -/
theorem lor65536 (p l : Nat) (hl : l < 65536) : 65536 * p ||| l = 65536 * p + l :=
  lor_shifted 16 p l hl

/-- Specialization of `lor_shifted` to the kind-bit boundary. -/
theorem lor128 (k h : Nat) (hh : h < 128) : 128 * k ||| h = 128 * k + h :=
  lor_shifted 7 k h hh

/-- The value computed by the encoder, in positional form, for inputs where
the `0xef` mask is harmless (bit 12 of the index clear) and the parent fits
in 15 bits. -/
theorem compact_value (k p i : Nat) (hk : k ≤ 1) (hp : p < 32768)
    (hi : i < 32768) (hbit : i / 4096 % 2 = 0) :
    p * 65536 % 4294967296 ||| ((k * 128 ||| (i / 256 &&& 239)) * 256 ||| (i &&& 255)) =
      p * 65536 + k * 32768 + i := by
  have hmod : p * 65536 % 4294967296 = p * 65536 := Nat.mod_eq_of_lt (by omega)
  have h255 : i &&& 255 = i % 256 := by
    have h : (255 : Nat) = 2 ^ 8 - 1 := by norm_num
    rw [h, Nat.and_pow_two_sub_one_eq_mod]
  have hhi : i / 256 < 128 := by omega
  have h4 : i / 256 / 16 % 2 = 0 := by
    rw [Nat.div_div_eq_div_mul]
    exact hbit
  have hef : i / 256 &&& 239 = i / 256 := and_ef_of_bit4_clear _ hhi h4
  have hd : k * 128 ||| i / 256 = k * 128 + i / 256 := by
    rw [Nat.mul_comm k 128]
    exact lor128 k _ hhi
  have hinner : (k * 128 + i / 256) * 256 ||| i % 256 = (k * 128 + i / 256) * 256 + i % 256 := by
    rw [Nat.mul_comm _ 256]
    exact lor256 _ _ (Nat.mod_lt _ (by norm_num))
  have houter : p * 65536 ||| ((k * 128 + i / 256) * 256 + i % 256) =
      p * 65536 + ((k * 128 + i / 256) * 256 + i % 256) := by
    rw [Nat.mul_comm p 65536]
    exact lor65536 p _ (by omega)
  rw [hmod, h255, hef, hd, hinner, houter]
  omega

/-- The decoder, applied to a positional-form value with the parent below
`2 ^ 15`, recovers the three components. -/
theorem extract_value (k p i : Nat) (hk : k ≤ 1) (hp : p < 32768)
    (hi : i < 32768) :
    GPUPicker.extract (p * 65536 + k * 32768 + i) = ⟨(p : Int), k, i⟩ := by
  have h32 : (2 : Nat) ^ 32 = 4294967296 := by norm_num
  have h31 : (2 : Nat) ^ 31 = 2147483648 := by norm_num
  have h16 : (2 : Nat) ^ 16 = 65536 := by norm_num
  have h15 : (2 : Nat) ^ 15 = 32768 := by norm_num
  have hc32 : (p * 65536 + k * 32768 + i) % 2 ^ 32 = p * 65536 + k * 32768 + i := by
    rw [h32]; exact Nat.mod_eq_of_lt (by omega)
  have hlt31 : p * 65536 + k * 32768 + i < 2 ^ 31 := by rw [h31]; omega
  simp only [GPUPicker.extract, GPUPicker.asInt32, hc32, if_pos hlt31,
    GPUPicker.Extracted.mk.injEq]
  refine ⟨?_, ?_, ?_⟩
  · have hpow : ((2 : Int) ^ 16) = ((65536 : Nat) : Int) := by norm_num
    rw [hpow, ← Int.natCast_ediv]
    norm_cast
    omega
  · rw [h16, h15]; omega
  · rw [h16, h15]; omega

/-- Claim C1 amended: the compact encode/decode pair is inverse on the
domain the implementation actually supports: `parentId < 2 ^ 15` (above
that the int32 sign corrupts the decoded parent), `index < 2 ^ 15`, and
bit 12 of the index clear (the encoder masks with `0xef` instead of `0x7f`,
dropping bit 12).  On that domain the encoding is the positional value
`parentId * 2 ^ 16 + kindBit * 2 ^ 15 + index` and `extract` recovers
`{parentId, kind, index}` with edge = 0, face = 1. -/
theorem C1_compact_roundtrip (kind : TopoKind) (parentId index : Nat)
    (hp : parentId < 2 ^ 15) (hi : index < 2 ^ 15)
    (hbit : index / 2 ^ 12 % 2 = 0) :
    GPUPicker.compactTopologyId kind parentId index =
      .ok (parentId * 2 ^ 16 + GPUPicker.kindBit kind * 2 ^ 15 + index) ∧
    GPUPicker.extract
        (parentId * 2 ^ 16 + GPUPicker.kindBit kind * 2 ^ 15 + index) =
      ⟨(parentId : Int), GPUPicker.kindBit kind, index⟩ := by
  have h15 : (2 : Nat) ^ 15 = 32768 := by norm_num
  have hk : GPUPicker.kindBit kind ≤ 1 := by
    unfold GPUPicker.kindBit; split <;> norm_num
  have hp' : parentId < 32768 := by rw [h15] at hp; exact hp
  have hi' : index < 32768 := by rw [h15] at hi; exact hi
  have hbit' : index / 4096 % 2 = 0 := by
    have h12 : (2 : Nat) ^ 12 = 4096 := by norm_num
    rw [h12] at hbit; exact hbit
  constructor
  · unfold GPUPicker.compactTopologyId
    rw [if_neg (by omega), if_neg (by omega)]
    show Except.ok _ = Except.ok _
    refine congrArg Except.ok ?_
    have := compact_value (GPUPicker.kindBit kind) parentId index hk hp' hi' hbit'
    unfold GPUPicker.kindBit at this
    exact this
  · have := extract_value (GPUPicker.kindBit kind) parentId index hk hp' hi'
    exact this

/-- Claim C1 counterexample: within the claimed widths (`parentId < 2 ^ 16`,
`index < 2 ^ 15`) the round trip fails.  The `0xef` mask drops bit 12 of
the index (`index = 4096` decodes as `0`), and a parent of `2 ^ 15` is
sign-extended to `-32768` by the signed shift in `extract`. -/
theorem C1_roundtrip_counterexample :
    GPUPicker.compactTopologyId TopoKind.face 42 4096 = .ok 2785280 ∧
    GPUPicker.extract 2785280 ≠ ⟨42, 1, 4096⟩ ∧
    GPUPicker.compactTopologyId TopoKind.edge 32768 0 = .ok 2147483648 ∧
    (GPUPicker.extract 2147483648).parentId ≠ 32768 := by
  refine ⟨rfl, by decide, rfl, by decide⟩

/-- Claim C2: the encoder's guards use strict `>`, so the out-of-width
boundary values `parentId = 2 ^ 16` and `index = 2 ^ 15` are accepted
rather than rejected: `parentId = 65536` is silently truncated away
(the encoding decodes to parent 0) and `index = 32768` silently overwrites
the kind bit (an edge decodes as a face). -/
theorem C2_boundary_not_rejected :
    GPUPicker.compactTopologyId TopoKind.face 65536 0 = .ok 32768 ∧
    (GPUPicker.extract 32768).parentId = 0 ∧
    GPUPicker.compactTopologyId TopoKind.edge 0 32768 = .ok 32768 ∧
    (GPUPicker.extract 32768).type = 1 := by
  refine ⟨rfl, by decide, rfl, by decide⟩

/-- Witness for `C1_compact_roundtrip`: the spec's scenario
`parentId = 42, kind = face, index = 7` encodes to `2785287` and decodes
back to `{42, face, 7}`. -/
theorem C1_compact_roundtrip_witness :
    GPUPicker.compactTopologyId TopoKind.face 42 7 = .ok 2785287 ∧
    GPUPicker.extract 2785287 = ⟨42, 1, 7⟩ := by
  have h := C1_compact_roundtrip TopoKind.face 42 7 (by decide) (by decide) (by decide)
  exact h

end BitLemmas

/-!
Embedding of `GeometryDatabase` (src/unnamed/part_001).

JavaScript `Map` and `Set` objects are mutable and shared by reference:
`saveToMemento` copies the three collections with `new Map(...)` /
`new Set(...)` (a shallow copy), while `restoreFromMemento` installs the
memento's collection objects into the live fields without copying.  To
capture this aliasing the state carries explicit heaps: each collection
object is a heap cell addressed by its index, and the store's fields
(`geometryModel`, `topologyModel`, `hidden`) are references into those
heaps.  The mutable `Set<Face | Edge>` inside each `TopologyData` value is
likewise a reference into a heap of view sets, because `new Map` copies
the map entries but shares the `TopologyData` objects and their sets.

`visual.*` (VisualModel.ts) and `GeometryMemento` (History.ts) are not
part of the provided sources; their data is modelled from the spec where
noted.  Maps are insertion-ordered association lists with unique keys,
matching JS `Map` semantics; sets are insertion-ordered duplicate-free
lists.
-/

/-- Kernel item runtime kind, the result of `c3d.Item.IsA()`.  `other`
stands for every kind not handled by the mesh builder. -/
inductive SpaceType where
  | SpaceInstance
  | PlaneInstance
  | Solid
  | other
deriving DecidableEq, Repr

/-- Result of one kernel tessellation call (`CreateMesh_async` followed by
the `Cast<c3d.Mesh>`): `edgesAll` is `GetEdges()`, `edgesVisible` is
`GetEdges(true)`, `buffers` is `GetBuffers()` (grids are opaque tags), and
`isClosed` is `IsClosed()`. -/
structure MeshResult where
  edgesAll : List String
  edgesVisible : List String
  buffers : List Nat
  isClosed : Bool
deriving DecidableEq, Repr

/-- Opaque kernel item handle (`c3d.Item`): its runtime kind, the kernel
tessellation at a given precision (which may raise), and the solid topology
re-resolution queries `GetFace` / `FindEdgeByName` used by the topology
index. -/
structure CItem where
  isA : SpaceType
  createMesh : Rat → Except String MeshResult
  getFace : Nat → Option Nat
  findEdgeByName : String → Option Nat

/-- Material tag for lines (`materials.line()`). -/
def lineMat : Nat := 0

/-- Material tag for regions (`materials.region()`). -/
def regionMat : Nat := 1

/-- Material tag for solid faces (`materials.mesh(grid, isClosed)`). -/
def meshMat (grid : Nat) (isClosed : Bool) : Nat := 2

/-- Modelled from the spec: a renderable face view (`visual.Face`, from the
missing VisualModel.ts).  Built by `visual.Face.build(grid, id, material)`;
`index` is the face's stable local index (`userData.index`). -/
structure VFace where
  parentId : Int
  index : Nat
  grid : Nat
  material : Nat
deriving DecidableEq, Repr

/-- Modelled from the spec: a renderable edge view (`visual.CurveEdge`).
Built by `visual.CurveEdge.build(edge, id, ...)`; `name` is the stable
kernel name (`userData.name`) and `index` its position, used for the
derived sub-entity identity. -/
structure VEdge where
  parentId : Int
  name : String
  index : Nat
  material : Nat
deriving DecidableEq, Repr

/-- Modelled from the spec: the composite sub-entity identity (parent
top-level identity + kind + local index) that VisualModel's `simpleName`
encodes; the spec allows a string or integer encoding, modelled here as a
record key with decidable equality. -/
structure TKey where
  parent : Int
  kind : TopoKind
  index : Nat
deriving DecidableEq, Repr

/-- Derived identity of a face view. -/
def VFace.simpleName (f : VFace) : TKey := ⟨f.parentId, TopoKind.face, f.index⟩

/-- Derived identity of an edge view. -/
def VEdge.simpleName (e : VEdge) : TKey := ⟨e.parentId, TopoKind.edge, e.index⟩

/-- A solid's sub-entity view: `visual.Face` or `visual.CurveEdge`. -/
inductive SubEntity where
  | face (f : VFace)
  | edge (e : VEdge)
deriving DecidableEq, Repr

/-- Derived identity of a sub-entity view (its `simpleName`). -/
def SubEntity.simpleName : SubEntity → TKey
  | .face f => f.simpleName
  | .edge e => e.simpleName

/-- One level of detail of a curve item: the curve segments built from
`mesh.GetEdges()` with the line material, plus the `addLOD` distance. -/
structure CurveLOD where
  segments : List (String × Nat)
  dist : Rat
deriving DecidableEq, Repr

/-- One level of detail of a planar region: the single polygon buffer with
the region material, plus the `addLOD` distance. -/
structure RegionLOD where
  grid : Nat
  material : Nat
  dist : Rat
deriving DecidableEq, Repr

/-- One level of detail of a solid: the visible-edge views and face views,
plus the `addLOD` distance. -/
structure SolidLOD where
  edges : List VEdge
  faces : List VFace
  dist : Rat
deriving DecidableEq, Repr

/-- A renderable item view (`visual.Item`), carrying its assigned
`simpleName` (`result.userData.simpleName = id`) and the levels built by
the corresponding builder. -/
inductive VItem where
  | spaceInstance (simpleName : Int) (lods : List CurveLOD)
  | planeInstance (simpleName : Int) (lods : List RegionLOD)
  | solid (simpleName : Int) (lods : List SolidLOD)
deriving DecidableEq, Repr

/-- The view's top-level identity. -/
def VItem.simpleName : VItem → Int
  | .spaceInstance n _ => n
  | .planeInstance n _ => n
  | .solid n _ => n

/-- The face/edge views reached by `traverse` on a view: solids expose the
edge group then the face group of every level; other kinds contain no
topology items. -/
def VItem.subEntities : VItem → List SubEntity
  | .solid _ lods =>
      lods.flatMap (fun l => l.edges.map SubEntity.edge ++ l.faces.map SubEntity.face)
  | _ => []

section MapHelpers

variable {α : Type} {β : Type} [DecidableEq α]

/-- JS `Map.get`: first (and only) binding of a key. -/
def mlookup : List (α × β) → α → Option β
  | [], _ => none
  | (k', v) :: rest, k => if k = k' then some v else mlookup rest k

/-- JS `Map.set`: update in place if the key is present (keeping its
insertion position), otherwise append. -/
def mset (m : List (α × β)) (k : α) (v : β) : List (α × β) :=
  if (mlookup m k).isSome then
    m.map (fun p => if p.1 = k then (k, v) else p)
  else m ++ [(k, v)]

/-- JS `Map.delete`: remove the binding of a key. -/
def mdelete (m : List (α × β)) (k : α) : List (α × β) :=
  m.filter (fun p => p.1 ≠ k)

/-- Key list of a map. -/
def mkeys (m : List (α × β)) : List α := m.map Prod.fst

/-- JS `Set.add`: append if absent. -/
def sadd (s : List α) (x : α) : List α :=
  if x ∈ s then s else s ++ [x]

/-- JS `Set.delete`: remove an element. -/
def sdelete (s : List α) (x : α) : List α :=
  s.filter (fun y => y ≠ x)

theorem mlookup_mdelete_self (m : List (α × β)) (k : α) :
    mlookup (mdelete m k) k = none := by
  induction m with
  | nil => rfl
  | cons p rest ih =>
    by_cases h : p.1 = k
    · simpa [mdelete, h] using ih
    · simpa [mdelete, List.filter_cons, h, mlookup, Ne.symm h] using ih

theorem mlookup_eq_none_of_not_mem_keys (m : List (α × β)) (k : α)
    (h : k ∉ mkeys m) : mlookup m k = none := by
  induction m with
  | nil => rfl
  | cons p rest ih =>
    simp only [mkeys, List.map_cons, List.mem_cons, not_or] at h
    simpa [mlookup, h.1] using ih (by simpa [mkeys] using h.2)

theorem mdelete_eq_self_of_not_mem_keys (m : List (α × β)) (k : α)
    (h : k ∉ mkeys m) : mdelete m k = m := by
  induction m with
  | nil => rfl
  | cons p rest ih =>
    simp only [mkeys, List.map_cons, List.mem_cons, not_or] at h
    have hne : p.1 ≠ k := fun he => h.1 he.symm
    have := ih (by simpa [mkeys] using h.2)
    simpa [mdelete, List.filter_cons, hne] using this

theorem mem_of_mlookup_eq_some {m : List (α × β)} {k : α} {v : β}
    (h : mlookup m k = some v) : (k, v) ∈ m := by
  induction m with
  | nil => simp [mlookup] at h
  | cons p rest ih =>
    by_cases he : k = p.1
    · simp only [mlookup, if_pos he] at h
      cases h
      subst he
      exact List.mem_cons_self _ _
    · simp only [mlookup, if_neg he] at h
      exact List.mem_cons_of_mem _ (ih h)

theorem mem_mset {m : List (α × β)} {k : α} {v : β} {p : α × β}
    (h : p ∈ mset m k v) : p ∈ m ∨ p = (k, v) := by
  unfold mset at h
  by_cases hs : (mlookup m k).isSome
  · rw [if_pos hs] at h
    obtain ⟨q, hq, hqe⟩ := List.mem_map.mp h
    by_cases hqk : q.1 = k
    · right; rw [if_pos hqk] at hqe; exact hqe.symm
    · left; rw [if_neg hqk] at hqe; exact hqe ▸ hq
  · rw [if_neg hs] at h
    rcases List.mem_append.mp h with h | h
    · left; exact h
    · right; simpa using h

theorem mem_keys_mset (m : List (α × β)) (k : α) (v : β) (k' : α)
    (h : k' ∈ mkeys m) : k' ∈ mkeys (mset m k v) := by
  unfold mset
  by_cases hs : (mlookup m k).isSome
  · rw [if_pos hs]
    obtain ⟨q, hq, hqe⟩ := List.mem_map.mp h
    refine List.mem_map.mpr ?_
    by_cases hqk : q.1 = k
    · exact ⟨(k, v), List.mem_map.mpr ⟨q, hq, by rw [if_pos hqk]⟩, by simpa [← hqe, hqk]⟩
    · exact ⟨q, List.mem_map.mpr ⟨q, hq, by rw [if_neg hqk]⟩, hqe⟩
  · rw [if_neg hs]
    simp only [mkeys, List.map_append, List.mem_append]
    left
    exact h

theorem mem_keys_mdelete (m : List (α × β)) (k k' : α)
    (hk : k' ∈ mkeys m) (hne : k' ≠ k) : k' ∈ mkeys (mdelete m k) := by
  obtain ⟨q, hq, hqe⟩ := List.mem_map.mp hk
  refine List.mem_map.mpr ⟨q, ?_, hqe⟩
  exact List.mem_filter.mpr ⟨hq, by simpa using hqe ▸ hne⟩

theorem mem_of_mem_mdelete {m : List (α × β)} {k : α} {p : α × β}
    (h : p ∈ mdelete m k) : p ∈ m :=
  (List.mem_filter.mp h).1

theorem mem_sadd_iff (s : List α) (x y : α) :
    y ∈ sadd s x ↔ y ∈ s ∨ y = x := by
  unfold sadd
  by_cases hx : x ∈ s
  · rw [if_pos hx]
    constructor
    · exact Or.inl
    · rintro (h | rfl)
      · exact h
      · exact hx
  · rw [if_neg hx]
    simp

theorem mem_of_mem_sdelete {s : List α} {x y : α} (h : y ∈ sdelete s x) :
    y ∈ s ∧ y ≠ x := by
  have := List.mem_filter.mp h
  exact ⟨this.1, by simpa using this.2⟩

theorem not_mem_sdelete_self (s : List α) (x : α) : x ∉ sdelete s x := by
  intro h
  exact (mem_of_mem_sdelete h).2 rfl

end MapHelpers

/-- A Topology Record value (`TopologyData`): the kernel topology handle
resolved at record time (`GetFace` / `FindEdgeByName`, which may return
nothing) and a reference into the view-set heap for the mutable
`Set<visual.Face | visual.Edge>`. -/
structure TopologyData where
  model : Option Nat
  viewRef : Nat
deriving DecidableEq, Repr

/-- Item Record map contents: identity to `{ view, model }`. -/
abbrev GMap := List (Int × (VItem × CItem))

/-- Topology Index contents: derived sub-entity identity to record. -/
abbrev TMap := List (TKey × TopologyData)

/-- Hidden Set contents. -/
abbrev HSet := List Int

/-- View-set contents (`Set<visual.Face | visual.Edge>`). -/
abbrev ViewSet := List SubEntity

/-- Modelled from the spec (History.ts is not in the sources):
`GeometryMemento` holds the three collection objects produced by
`saveToMemento`, i.e. references to the copies in the heaps. -/
structure GeometryMemento where
  gmRef : Nat
  tmRef : Nat
  hsRef : Nat
deriving DecidableEq, Repr

/-- The `GeometryDatabase` state.  The three JS collection objects
(`geometryModel` map, `topologyModel` map, `hidden` set) live in heaps and
the class fields are references into them, so that `saveToMemento`'s
shallow copies and `restoreFromMemento`'s aliasing assignment are modelled
exactly.  `vsHeap` holds the mutable view sets owned by `TopologyData`
values.  `counter` is the private identity counter and `temp` the children
of the `temporaryObjects` scene. -/
structure GeometryDatabase where
  gmHeap : List GMap
  tmHeap : List TMap
  hsHeap : List HSet
  vsHeap : List ViewSet
  gmRef : Nat
  tmRef : Nat
  hsRef : Nat
  counter : Nat
  temp : List VItem

namespace GeometryDatabase

/-- A fresh store, as the constructor leaves it. -/
def init : GeometryDatabase :=
  ⟨[[]], [[]], [[]], [], 0, 0, 0, 0, []⟩

/-- The live Item Record map (`this.geometryModel`). -/
def geometryModel (db : GeometryDatabase) : GMap := db.gmHeap.getD db.gmRef []

/-- The live Topology Index (`this.topologyModel`). -/
def topologyModel (db : GeometryDatabase) : TMap := db.tmHeap.getD db.tmRef []

/-- The live Hidden Set (`this.hidden`). -/
def hidden (db : GeometryDatabase) : HSet := db.hsHeap.getD db.hsRef []

/-- Contents of a view set by heap reference. -/
def viewSet (db : GeometryDatabase) (j : Nat) : ViewSet := db.vsHeap.getD j []

/-- Write the live Item Record map in place. -/
def setGM (db : GeometryDatabase) (g : GMap) : GeometryDatabase :=
  { db with gmHeap := db.gmHeap.set db.gmRef g }

/-- Write the live Topology Index in place. -/
def setTM (db : GeometryDatabase) (t : TMap) : GeometryDatabase :=
  { db with tmHeap := db.tmHeap.set db.tmRef t }

/-- Write the live Hidden Set in place. -/
def setHS (db : GeometryDatabase) (h : HSet) : GeometryDatabase :=
  { db with hsHeap := db.hsHeap.set db.hsRef h }

/-- Write a view set in place. -/
def setVS (db : GeometryDatabase) (j : Nat) (v : ViewSet) : GeometryDatabase :=
  { db with vsHeap := db.vsHeap.set j v }

/-- One `object2mesh` pass for a curve item (`SpaceInstance` case):
tessellate, turn each of `mesh.GetEdges()` into a curve segment with the
line material, and add one LOD at the given distance. -/
def curveLevel (obj : CItem) (sag dist : Rat) : Except String CurveLOD :=
  match obj.createMesh sag with
  | .error e => .error e
  | .ok mesh => .ok ⟨mesh.edgesAll.map (fun e => (e, lineMat)), dist⟩

/-- One `object2mesh` pass for a planar region (`PlaneInstance` case): the
kernel must return exactly one polygon buffer (`grids.length != 1` throws
"Invalid precondition"); the single grid becomes the region with the region
material. -/
def regionLevel (obj : CItem) (sag dist : Rat) : Except String RegionLOD :=
  match obj.createMesh sag with
  | .error e => .error e
  | .ok mesh =>
    match mesh.buffers with
    | [grid] => .ok ⟨grid, regionMat, dist⟩
    | _ => .error "Invalid precondition"

/-- One `object2mesh` pass for a solid: visible edges (`GetEdges(true)`)
become `CurveEdge` views and the polygon buffers become `Face` views, each
tagged with the parent identity `id` and its stable local position. -/
def solidLevel (obj : CItem) (id : Int) (sag dist : Rat) : Except String SolidLOD :=
  match obj.createMesh sag with
  | .error e => .error e
  | .ok mesh =>
    .ok ⟨mesh.edgesVisible.enum.map (fun p => ⟨id, p.2, p.1, lineMat⟩),
      mesh.buffers.enum.map (fun p => ⟨id, p.1, p.2, meshMat p.2 mesh.isClosed⟩),
      dist⟩

/-- The sequential per-level loop of `meshes`: each level is built in
order, the first kernel exception aborting the remaining levels. -/
def buildLevels {α : Type} (f : Rat × Rat → Except String α) :
    List (Rat × Rat) → Except String (List α)
  | [] => .ok []
  | pr :: rest =>
    match f pr with
    | .error e => .error e
    | .ok l =>
      match buildLevels f rest with
      | .error e => .error e
      | .ok ls => .ok (l :: ls)

/-- The production LOD schedule `precision_distance`. -/
def precision_distance : List (Rat × Rat) := [(1/10, 50), (1/1000, 5), (1/10000, 1/2)]

/-- Embedding of the private `meshes(obj, id, precision_distance)`: select
the builder by the kernel item's runtime kind (any other kind is the
"type not yet supported" error), run `object2mesh` for every level in
order, and assemble the view with `userData.simpleName = id`. -/
def meshes (obj : CItem) (id : Int) (pd : List (Rat × Rat)) : Except String VItem :=
  match obj.isA with
  | .SpaceInstance =>
    match buildLevels (fun pr => curveLevel obj pr.1 pr.2) pd with
    | .error e => .error e
    | .ok lods => .ok (.spaceInstance id lods)
  | .PlaneInstance =>
    match buildLevels (fun pr => regionLevel obj pr.1 pr.2) pd with
    | .error e => .error e
    | .ok lods => .ok (.planeInstance id lods)
  | .Solid =>
    match buildLevels (fun pr => solidLevel obj id pr.1 pr.2) pd with
    | .error e => .error e
    | .ok lods => .ok (.solid id lods)
  | .other => .error "type not yet supported"

/-- Embedding of the private `addTopologyItem(parent, t)`: requires the
parent kernel item to be a solid; on the first encounter of the derived
identity a record with a fresh empty view set is inserted (resolving the
kernel handle by face index or edge name), otherwise the existing record's
view set is reused; either way `t` is added to that set. -/
def addTopologyItem (parent : CItem) (t : SubEntity) (db : GeometryDatabase) :
    GeometryDatabase × Except String Unit :=
  if parent.isA ≠ SpaceType.Solid then (db, .error "invalid precondition")
  else
    match mlookup db.topologyModel t.simpleName with
    | none =>
      let model := match t with
        | .face f => parent.getFace f.index
        | .edge e => parent.findEdgeByName e.name
      let vr := db.vsHeap.length
      let db' := { db with vsHeap := db.vsHeap ++ [[]] }
      let db'' := db'.setTM (mset db'.topologyModel t.simpleName ⟨model, vr⟩)
      (db''.setVS vr (sadd (db''.viewSet vr) t), .ok ())
    | some td => (db.setVS td.viewRef (sadd (db.viewSet td.viewRef) t), .ok ())

/-- The `view.traverse` walk of `addItem` over a solid view's face and edge
children, calling `addTopologyItem` for each in order. -/
def addTopologyItems (parent : CItem) : List SubEntity → GeometryDatabase →
    GeometryDatabase × Except String Unit
  | [], db => (db, .ok ())
  | t :: rest, db =>
    match addTopologyItem parent t db with
    | (db', .ok _) => addTopologyItems parent rest db'
    | (db', .error e) => (db', .error e)

/-- Embedding of `addItem(model)`: take the current counter value and
increment it (this happens before the awaited mesh build, so a failed build
still consumes the identity), build the view at the production LOD
schedule, insert the Item Record, and for a solid view walk its
sub-entities into the Topology Index.  Signal dispatch carries no state and
is not modelled. -/
def addItem (model : CItem) (db : GeometryDatabase) :
    GeometryDatabase × Except String VItem :=
  let current := db.counter
  let db := { db with counter := current + 1 }
  match meshes model (current : Int) precision_distance with
  | .error e => (db, .error e)
  | .ok view =>
    let db := db.setGM (mset db.geometryModel (current : Int) (view, model))
    match view with
    | .solid _ _ =>
      match addTopologyItems model view.subEntities db with
      | (db, .ok _) => (db, .ok view)
      | (db, .error e) => (db, .error e)
    | _ => (db, .ok view)

/-- Embedding of `addTemporaryItem(object)`: build a single very fine level
with the sentinel identity `-1` and place the mesh in the transient
workspace; no identity is allocated and no record is written. -/
def addTemporaryItem (object : CItem) (db : GeometryDatabase) :
    GeometryDatabase × Except String VItem :=
  match meshes object (-1) [(5/1000, 1)] with
  | .error e => (db, .error e)
  | .ok mesh => ({ db with temp := db.temp ++ [mesh] }, .ok mesh)

/-- The temporary object's `cancel()`: remove the mesh from the workspace. -/
def tempCancel (mesh : VItem) (db : GeometryDatabase) : GeometryDatabase :=
  { db with temp := db.temp.erase mesh }

/-- The temporary object's `commit()`: remove the mesh from the workspace
and re-issue the kernel object through `addItem`. -/
def tempCommit (mesh : VItem) (object : CItem) (db : GeometryDatabase) :
    GeometryDatabase × Except String VItem :=
  addItem object { db with temp := db.temp.erase mesh }

/-- The `removeTopologyItems(parent)` traverse: delete every sub-entity's
derived identity from the Topology Index. -/
def removeTopologyItems (parent : VItem) (db : GeometryDatabase) : GeometryDatabase :=
  db.setTM (parent.subEntities.foldl (fun tm o => mdelete tm o.simpleName) db.topologyModel)

/-- Embedding of `removeItem(object)`: delete the Item Record, the
sub-entity Topology Records, and the Hidden Set entry.  Note the source
performs no presence check: deleting an absent key is a silent no-op. -/
def removeItem (object : VItem) (db : GeometryDatabase) : GeometryDatabase :=
  let simpleName := object.simpleName
  let db := db.setGM (mdelete db.geometryModel simpleName)
  let db := removeTopologyItems object db
  db.setHS (sdelete db.hidden simpleName)

/-- `lookupItemById`: fails with the precondition error when absent. -/
def lookupItemById (db : GeometryDatabase) (id : Int) : Except String (VItem × CItem) :=
  match mlookup db.geometryModel id with
  | none => .error "invalid precondition: object missing from geometry model"
  | some r => .ok r

/-- `lookupTopologyItemById`: fails with the precondition error when absent. -/
def lookupTopologyItemById (db : GeometryDatabase) (id : TKey) : Except String TopologyData :=
  match mlookup db.topologyModel id with
  | none => .error "invalid precondition: object missing from topology model"
  | some r => .ok r

/-- `visibleObjects`: the Item Record views whose identity is not hidden,
in insertion order. -/
def visibleObjects (db : GeometryDatabase) : List VItem :=
  ((db.geometryModel.map (fun p => p.2.1)).filter
    (fun v => v.simpleName ∉ db.hidden))

/-- `hide(item)`: add the identity to the Hidden Set (no presence check). -/
def hide (item : VItem) (db : GeometryDatabase) : GeometryDatabase :=
  db.setHS (sadd db.hidden item.simpleName)

/-- `unhide(item)`: remove the identity from the Hidden Set. -/
def unhide (item : VItem) (db : GeometryDatabase) : GeometryDatabase :=
  db.setHS (sdelete db.hidden item.simpleName)

/-- Embedding of `saveToMemento`: allocate three fresh collection objects
holding shallow copies (`new Map`, `new Map`, `new Set`) of the live
collections, and return a memento referencing them. -/
def saveToMemento (db : GeometryDatabase) : GeometryMemento × GeometryDatabase :=
  (⟨db.gmHeap.length, db.tmHeap.length, db.hsHeap.length⟩,
   { db with
      gmHeap := db.gmHeap ++ [db.geometryModel]
      tmHeap := db.tmHeap ++ [db.topologyModel]
      hsHeap := db.hsHeap ++ [db.hidden] })

/-- Embedding of `restoreFromMemento(m)`: the three live fields are
assigned the memento's collection objects directly — no copy is taken, so
the live collections and the memento's alias afterwards. -/
def restoreFromMemento (m : GeometryMemento) (db : GeometryDatabase) : GeometryDatabase :=
  { db with gmRef := m.gmRef, tmRef := m.tmRef, hsRef := m.hsRef }

/-- Observed Item Record map of a memento in a given state. -/
def obsItems (db : GeometryDatabase) (m : GeometryMemento) : GMap :=
  db.gmHeap.getD m.gmRef []

/-- Observed Topology Index of a memento, with each record's view-set
contents read through the view-set heap. -/
def obsTopo (db : GeometryDatabase) (m : GeometryMemento) :
    List (TKey × Option Nat × ViewSet) :=
  (db.tmHeap.getD m.tmRef []).map (fun p => (p.1, p.2.model, db.vsHeap.getD p.2.viewRef []))

/-- Observed Hidden Set of a memento. -/
def obsHidden (db : GeometryDatabase) (m : GeometryMemento) : HSet :=
  db.hsHeap.getD m.hsRef []

end GeometryDatabase

section HeapLemmas

variable {α : Type}

theorem getD_concat (l : List α) (x : α) (d : α) : (l ++ [x]).getD l.length d = x := by
  rw [List.getD_eq_get?, List.get?_concat_length]
  rfl

theorem getD_append_lt (l l' : List α) (j : Nat) (d : α) (h : j < l.length) :
    (l ++ l').getD j d = l.getD j d := by
  rw [List.getD_eq_get?, List.getD_eq_get?, List.get?_append h]

theorem getD_set_same (l : List α) (i : Nat) (v d : α) :
    (l.set i v).getD i d = if i < l.length then v else d := by
  by_cases h : i < l.length
  · rw [List.getD_eq_get?, List.get?_set_eq_of_lt _ h, if_pos h]
    rfl
  · rw [List.getD_eq_get?, if_neg h]
    have hle : l.length ≤ i := Nat.le_of_not_lt h
    have : (l.set i v).get? i = none := by
      rw [List.get?_eq_none]
      simpa using hle
    rw [this]
    rfl

theorem getD_set_ne (l : List α) (i j : Nat) (v d : α) (h : i ≠ j) :
    (l.set i v).getD j d = l.getD j d := by
  rw [List.getD_eq_get?, List.getD_eq_get?, List.get?_set_ne _ _ h]

theorem getD_of_length_le (l : List α) (i : Nat) (d : α) (h : l.length ≤ i) :
    l.getD i d = d := by
  rw [List.getD_eq_get?]
  have : l.get? i = none := List.get?_eq_none.mpr h
  rw [this]
  rfl

end HeapLemmas

section AbsenceLemmas

variable {α : Type} {β : Type} [DecidableEq α]

theorem mlookup_eq_none_iff (m : List (α × β)) (k : α) :
    mlookup m k = none ↔ k ∉ mkeys m := by
  induction m with
  | nil => simp [mlookup, mkeys]
  | cons p rest ih =>
    by_cases h : k = p.1
    · simp [mlookup, h, mkeys]
    · simp only [mlookup, if_neg h, mkeys, List.map_cons, List.mem_cons, not_or]
      rw [ih]
      simp only [mkeys]
      constructor
      · intro hk
        exact ⟨h, hk⟩
      · intro hk
        exact hk.2

theorem mkeys_mdelete_sub (m : List (α × β)) (k k' : α)
    (h : k' ∈ mkeys (mdelete m k)) : k' ∈ mkeys m := by
  obtain ⟨q, hq, hqe⟩ := List.mem_map.mp h
  exact List.mem_map.mpr ⟨q, mem_of_mem_mdelete hq, hqe⟩

theorem not_mem_mkeys_mdelete_self (m : List (α × β)) (k : α) :
    k ∉ mkeys (mdelete m k) :=
  (mlookup_eq_none_iff _ _).mp (mlookup_mdelete_self m k)

end AbsenceLemmas

namespace GeometryDatabase

/-- Error result test for lookups. -/
def isErr {α : Type} : Except String α → Bool
  | .error _ => true
  | .ok _ => false

theorem fold_mdelete_preserves_absent (l : List SubEntity) (k : TKey) :
    ∀ tm : TMap, k ∉ mkeys tm →
      k ∉ mkeys (l.foldl (fun tm o => mdelete tm o.simpleName) tm) := by
  induction l with
  | nil => intro tm h; exact h
  | cons t rest ih =>
    intro tm h
    exact ih _ (fun hc => h (mkeys_mdelete_sub _ _ _ hc))

theorem fold_mdelete_absent (l : List SubEntity) (s : SubEntity) (hs : s ∈ l) :
    ∀ tm : TMap,
      mlookup (l.foldl (fun tm o => mdelete tm o.simpleName) tm) s.simpleName = none := by
  induction l with
  | nil => cases hs
  | cons t rest ih =>
    intro tm
    rcases List.mem_cons.mp hs with he | hm
    · by_cases hr : s ∈ rest
      · exact ih hr _
      · rw [mlookup_eq_none_iff]
        subst he
        exact fold_mdelete_preserves_absent rest _ _ (not_mem_mkeys_mdelete_self _ _)
    · exact ih hm _

theorem geometryModel_removeItem (x : VItem) (db : GeometryDatabase) :
    (removeItem x db).geometryModel =
      if db.gmRef < db.gmHeap.length then mdelete db.geometryModel x.simpleName
      else [] := by
  simp only [removeItem, removeTopologyItems, setGM, setTM, setHS, geometryModel]
  exact getD_set_same _ _ _ _

theorem topologyModel_removeItem (x : VItem) (db : GeometryDatabase) :
    (removeItem x db).topologyModel =
      if db.tmRef < db.tmHeap.length then
        x.subEntities.foldl (fun tm o => mdelete tm o.simpleName) db.topologyModel
      else [] := by
  simp only [removeItem, removeTopologyItems, setGM, setTM, setHS, topologyModel,
    geometryModel, List.length_set]
  exact getD_set_same _ _ _ _

/-- Claim C5: after `removeItem x`, looking up `x`'s identity fails and
every Topology Record derived from `x` (the identities of `x`'s face and
edge sub-entity views) is absent, so its lookup fails too.  This holds for
every prior store state, in particular for the state in which `x` was
added by `addItem`. -/
theorem C5_remove_clears_lookups (db : GeometryDatabase) (x : VItem) :
    isErr (lookupItemById (removeItem x db) x.simpleName) = true ∧
    ∀ s ∈ x.subEntities,
      isErr (lookupTopologyItemById (removeItem x db) s.simpleName) = true := by
  constructor
  · rw [lookupItemById, geometryModel_removeItem]
    by_cases h : db.gmRef < db.gmHeap.length
    · rw [if_pos h, mlookup_mdelete_self]
      rfl
    · rw [if_neg h]
      rfl
  · intro s hs
    rw [lookupTopologyItemById, topologyModel_removeItem]
    by_cases h : db.tmRef < db.tmHeap.length
    · rw [if_pos h, fold_mdelete_absent _ s hs]
      rfl
    · rw [if_neg h]
      rfl

/-- Claim C4 counterexample: removing an item that is not present is not
detected.  On the fresh store, removing an identity-5 item returns with the
store unchanged — no error surfaces to the caller. -/
theorem C4_remove_absent_counterexample :
    mlookup init.geometryModel 5 = none ∧
    removeItem (VItem.solid 5 []) init = init := ⟨rfl, rfl⟩

/-- Claim C4 amended: `removeItem` performs no presence check, so removing
an item whose identity is absent from the Item Record map is not a
precondition failure: the call completes silently (the embedding is a
total function) and leaves the Item Record map unchanged; it still
unconditionally deletes the argument's sub-entity keys and hidden-set
entry and emits the removal signals. -/
theorem C4_remove_absent_silent (db : GeometryDatabase) (v : VItem)
    (h : v.simpleName ∉ mkeys db.geometryModel) :
    (removeItem v db).geometryModel = db.geometryModel := by
  rw [geometryModel_removeItem, mdelete_eq_self_of_not_mem_keys _ _ h]
  by_cases hlt : db.gmRef < db.gmHeap.length
  · rw [if_pos hlt]
  · rw [if_neg hlt, geometryModel, getD_of_length_le _ _ _ (Nat.le_of_not_lt hlt)]

/-- Witness for `C4_remove_absent_silent` at the fresh store and an
identity-7 item. -/
theorem C4_remove_absent_silent_witness :
    (removeItem (VItem.solid 7 []) init).geometryModel = init.geometryModel :=
  C4_remove_absent_silent init (VItem.solid 7 []) (by decide)

theorem geometryModel_restore_save (db : GeometryDatabase) :
    (restoreFromMemento (saveToMemento db).1 (saveToMemento db).2).geometryModel =
      db.geometryModel := by
  simp only [restoreFromMemento, saveToMemento, geometryModel]
  exact getD_concat _ _ _

theorem topologyModel_restore_save (db : GeometryDatabase) :
    (restoreFromMemento (saveToMemento db).1 (saveToMemento db).2).topologyModel =
      db.topologyModel := by
  simp only [restoreFromMemento, saveToMemento, topologyModel]
  exact getD_concat _ _ _

theorem hidden_restore_save (db : GeometryDatabase) :
    (restoreFromMemento (saveToMemento db).1 (saveToMemento db).2).hidden =
      db.hidden := by
  simp only [restoreFromMemento, saveToMemento, hidden]
  exact getD_concat _ _ _

/-- Claim C6: `saveToMemento` immediately followed by `restoreFromMemento`
of the returned memento leaves the store observationally unchanged:
`visibleObjects`, every `lookupItemById` result, every
`lookupTopologyItemById` result, and the view-set heap the topology records
point into are all the same as before. -/
theorem C6_save_restore_roundtrip (db : GeometryDatabase) :
    visibleObjects (restoreFromMemento (saveToMemento db).1 (saveToMemento db).2) =
      visibleObjects db ∧
    (∀ id : Int,
      lookupItemById (restoreFromMemento (saveToMemento db).1 (saveToMemento db).2) id =
        lookupItemById db id) ∧
    (∀ k : TKey,
      lookupTopologyItemById
          (restoreFromMemento (saveToMemento db).1 (saveToMemento db).2) k =
        lookupTopologyItemById db k) ∧
    (restoreFromMemento (saveToMemento db).1 (saveToMemento db).2).vsHeap = db.vsHeap := by
  refine ⟨?_, ?_, ?_, rfl⟩
  · rw [visibleObjects, visibleObjects, geometryModel_restore_save, hidden_restore_save]
  · intro id
    rw [lookupItemById, lookupItemById, geometryModel_restore_save]
  · intro k
    rw [lookupTopologyItemById, lookupTopologyItemById, topologyModel_restore_save]

end GeometryDatabase

namespace GeometryDatabase

/-- A kernel item of a kind the mesh builder does not support. -/
def unsupportedItem : CItem :=
  ⟨SpaceType.other, fun _ => .ok ⟨[], [], [], false⟩, fun _ => none, fun _ => none⟩

/-- A planar-region kernel item whose tessellation returns exactly one
polygon buffer at every precision. -/
def regionOneBuffer : CItem :=
  ⟨SpaceType.PlaneInstance, fun _ => .ok ⟨[], [], [4], false⟩, fun _ => none, fun _ => none⟩

/-- A solid kernel item producing two faces and four visible edges at every
precision, with resolvable topology handles. -/
def solidTwoFaces : CItem :=
  ⟨SpaceType.Solid, fun _ => .ok ⟨[], ["e0", "e1", "e2", "e3"], [10, 11], true⟩,
    fun n => some (100 + n), fun _ => some 7⟩

/-- Claim C9: when the mesh build fails (kernel tessellation raises, the
kind is unsupported, or a region returns a bad buffer cardinality — all of
which surface as a `meshes` error), each entry point is atomic, and the
two entry points are covered independently of one another (an item may
fail under one LOD schedule but not the other).  If the build under the
production schedule fails, `addItem` propagates the error and commits
nothing: the Item Record map, Topology Index, Hidden Set and transient
workspace are unchanged (only the pre-allocated identity counter has
advanced, as the increment precedes the awaited build).  If the build
under the preview schedule fails, `addTemporaryItem` propagates the error
with the state fully unchanged. -/
theorem C9_mesh_failure_atomic (db : GeometryDatabase) (m : CItem) (e1 e2 : String) :
    (meshes m (db.counter : Int) precision_distance = .error e1 →
      addItem m db = ({ db with counter := db.counter + 1 }, .error e1) ∧
      (addItem m db).1.geometryModel = db.geometryModel ∧
      (addItem m db).1.topologyModel = db.topologyModel ∧
      (addItem m db).1.hidden = db.hidden ∧
      (addItem m db).1.temp = db.temp) ∧
    (meshes m (-1) [(5/1000, 1)] = .error e2 →
      addTemporaryItem m db = (db, .error e2)) := by
  constructor
  · intro h1
    have ha : addItem m db = ({ db with counter := db.counter + 1 }, .error e1) := by
      simp only [addItem, h1]
    refine ⟨ha, ?_, ?_, ?_, ?_⟩ <;> rw [ha] <;> rfl
  · intro h2
    simp only [addTemporaryItem, h2]

/-- Witness for `C9_mesh_failure_atomic`: an unsupported kernel kind on the
fresh store fails under either schedule with "type not yet supported";
applying each half of the theorem separately shows both entry points
return the error and leave all collections empty. -/
theorem C9_mesh_failure_atomic_witness :
    addItem unsupportedItem init =
      ({ init with counter := 1 }, .error "type not yet supported") ∧
    addTemporaryItem unsupportedItem init = (init, .error "type not yet supported") := by
  have h := C9_mesh_failure_atomic init unsupportedItem
    "type not yet supported" "type not yet supported"
  exact ⟨(h.1 rfl).1, h.2 rfl⟩

theorem isErr_error {α : Type} (e : String) :
    isErr (Except.error e : Except String α) = true := rfl

theorem isErr_ok {α : Type} (x : α) :
    isErr (Except.ok x : Except String α) = false := rfl

theorem isErr_buildLevels_cons {α : Type} (f : Rat × Rat → Except String α)
    (pr : Rat × Rat) (rest : List (Rat × Rat)) :
    isErr (buildLevels f (pr :: rest)) = (isErr (f pr) || isErr (buildLevels f rest)) := by
  simp only [buildLevels]
  cases f pr <;> cases buildLevels f rest <;> rfl

theorem buildLevels_not_err_iff {α : Type} (f : Rat × Rat → Except String α)
    (l : List (Rat × Rat)) :
    isErr (buildLevels f l) = false ↔ ∀ pr ∈ l, isErr (f pr) = false := by
  induction l with
  | nil => simp [buildLevels, isErr]
  | cons pr rest ih =>
    rw [isErr_buildLevels_cons, Bool.or_eq_false_iff, ih]
    simp only [List.mem_cons]
    constructor
    · rintro ⟨h1, h2⟩ q hq
      rcases hq with rfl | hq
      · exact h1
      · exact h2 q hq
    · intro h
      exact ⟨h pr (Or.inl rfl), fun q hq => h q (Or.inr hq)⟩

theorem regionLevel_not_err_iff (obj : CItem) (sag dist : Rat) :
    isErr (regionLevel obj sag dist) = false ↔
      ∃ mr, obj.createMesh sag = .ok mr ∧ mr.buffers.length = 1 := by
  unfold regionLevel
  split
  next e heq =>
    rw [isErr_error]
    constructor
    · intro hc
      exact absurd hc (by simp)
    · rintro ⟨mr, hmr, _⟩
      rw [heq] at hmr
      cases hmr
  next mesh heq =>
    split
    next g hb =>
      rw [isErr_ok]
      refine ⟨fun _ => ⟨mesh, heq, by rw [hb]; rfl⟩, fun _ => rfl⟩
    next hb =>
      rw [isErr_error]
      constructor
      · intro hc
        exact absurd hc (by simp)
      · rintro ⟨mr, hmr, hlen⟩
        rw [heq] at hmr
        cases hmr
        obtain ⟨g, hg⟩ := List.length_eq_one.mp hlen
        exact absurd hg (by intro hgg; exact hb g hgg)

/-- Claim C10: building a planar-region item succeeds exactly when every
level's kernel tessellation succeeds and returns exactly one polygon
buffer — any other cardinality, including zero buffers, raises the
"Invalid precondition" error for that level and fails the whole build. -/
theorem C10_region_buffer_cardinality (obj : CItem) (id : Int)
    (pd : List (Rat × Rat)) (h : obj.isA = SpaceType.PlaneInstance) :
    isErr (meshes obj id pd) = false ↔
      ∀ pr ∈ pd, ∃ mr, obj.createMesh pr.1 = .ok mr ∧ mr.buffers.length = 1 := by
  have key : isErr (meshes obj id pd) =
      isErr (buildLevels (fun pr => regionLevel obj pr.1 pr.2) pd) := by
    unfold meshes
    rw [h]
    split
    · rename_i heq
      cases heq
    · split
      · rename_i e heq2
        rw [heq2]
        rfl
      · rename_i lods heq2
        rw [heq2]
        rfl
    · rename_i heq
      cases heq
    · rename_i heq
      cases heq
  rw [key, buildLevels_not_err_iff]
  constructor
  · intro hall pr hpr
    exact (regionLevel_not_err_iff obj pr.1 pr.2).mp (hall pr hpr)
  · intro hall pr hpr
    exact (regionLevel_not_err_iff obj pr.1 pr.2).mpr (hall pr hpr)

/-- Witness for `C10_region_buffer_cardinality`: the one-buffer region item
builds successfully at the production LOD schedule. -/
theorem C10_region_buffer_cardinality_witness :
    isErr (meshes regionOneBuffer 0 precision_distance) = false :=
  (C10_region_buffer_cardinality regionOneBuffer 0 precision_distance rfl).mpr
    (fun pr _ => ⟨⟨[], [], [4], false⟩, rfl, rfl⟩)

end GeometryDatabase

namespace GeometryDatabase

theorem addTopologyItem_shape (parent : CItem) (t : SubEntity) (db : GeometryDatabase) :
    (addTopologyItem parent t db).1.gmHeap = db.gmHeap ∧
    (addTopologyItem parent t db).1.hsHeap = db.hsHeap ∧
    (addTopologyItem parent t db).1.temp = db.temp ∧
    (addTopologyItem parent t db).1.gmRef = db.gmRef ∧
    (addTopologyItem parent t db).1.tmRef = db.tmRef ∧
    (addTopologyItem parent t db).1.hsRef = db.hsRef ∧
    (addTopologyItem parent t db).1.counter = db.counter ∧
    (addTopologyItem parent t db).1.tmHeap.length = db.tmHeap.length ∧
    (∀ a, a ≠ db.tmRef →
      (addTopologyItem parent t db).1.tmHeap.getD a [] = db.tmHeap.getD a []) ∧
    db.vsHeap.length ≤ (addTopologyItem parent t db).1.vsHeap.length := by
  unfold addTopologyItem
  split
  · exact ⟨rfl, rfl, rfl, rfl, rfl, rfl, rfl, rfl, fun a _ => rfl, Nat.le_refl _⟩
  · split
    · refine ⟨rfl, rfl, rfl, rfl, rfl, rfl, rfl, by simp [setTM, setVS], ?_,
        by simp [setTM, setVS]⟩
      intro a ha
      simp only [setTM, setVS]
      exact getD_set_ne _ _ _ _ _ (fun he => ha he.symm)
    · exact ⟨rfl, rfl, rfl, rfl, rfl, rfl, rfl, rfl, fun a _ => rfl, by simp [setVS]⟩

theorem addTopologyItems_shape (parent : CItem) :
    ∀ (l : List SubEntity) (db : GeometryDatabase),
    (addTopologyItems parent l db).1.gmHeap = db.gmHeap ∧
    (addTopologyItems parent l db).1.hsHeap = db.hsHeap ∧
    (addTopologyItems parent l db).1.temp = db.temp ∧
    (addTopologyItems parent l db).1.gmRef = db.gmRef ∧
    (addTopologyItems parent l db).1.tmRef = db.tmRef ∧
    (addTopologyItems parent l db).1.hsRef = db.hsRef ∧
    (addTopologyItems parent l db).1.counter = db.counter ∧
    (addTopologyItems parent l db).1.tmHeap.length = db.tmHeap.length ∧
    (∀ a, a ≠ db.tmRef →
      (addTopologyItems parent l db).1.tmHeap.getD a [] = db.tmHeap.getD a []) ∧
    db.vsHeap.length ≤ (addTopologyItems parent l db).1.vsHeap.length := by
  intro l
  induction l with
  | nil =>
    intro db
    exact ⟨rfl, rfl, rfl, rfl, rfl, rfl, rfl, rfl, fun a _ => rfl, Nat.le_refl _⟩
  | cons t rest ih =>
    intro db
    have h1 := addTopologyItem_shape parent t db
    rw [addTopologyItems]
    cases hstep : addTopologyItem parent t db with
    | mk db' r =>
      rw [hstep] at h1
      cases r with
      | ok u =>
        have h2 := ih db'
        simp only at h1 h2 ⊢
        obtain ⟨a1, a2, a3, a4, a5, a6, a7, a8, a9, a10⟩ := h1
        obtain ⟨b1, b2, b3, b4, b5, b6, b7, b8, b9, b10⟩ := h2
        refine ⟨b1.trans a1, b2.trans a2, b3.trans a3, b4.trans a4, b5.trans a5,
          b6.trans a6, b7.trans a7, b8.trans a8, ?_, a10.trans b10⟩
        intro a ha
        rw [← a5] at ha
        exact (b9 a ha).trans (a9 a (by rw [← a5]; exact ha))
      | error e =>
        simp only at h1 ⊢
        exact h1

theorem addTopologyItems_fst_counter (parent : CItem) (l : List SubEntity)
    (db0 : GeometryDatabase) {p : GeometryDatabase × Except String Unit}
    (h : addTopologyItems parent l db0 = p) : p.1.counter = db0.counter := by
  rw [← h]
  exact (addTopologyItems_shape parent l db0).2.2.2.2.2.2.1

theorem addItem_counter (m : CItem) (db : GeometryDatabase) :
    (addItem m db).1.counter = db.counter + 1 := by
  simp only [addItem]
  split
  · rfl
  · rename_i view heq
    split
    · rename_i sn lods
      split
      · rename_i db2 u hsteps
        have hc := addTopologyItems_fst_counter m _ _ hsteps
        simp only at hc
        rw [hc]
        rfl
      · rename_i db2 e hsteps
        have hc := addTopologyItems_fst_counter m _ _ hsteps
        simp only at hc
        rw [hc]
        rfl
    · rfl

theorem addTemporaryItem_state (m : CItem) (db : GeometryDatabase) :
    (addTemporaryItem m db).1 = db ∨
    (addTemporaryItem m db).1 = { db with temp := (addTemporaryItem m db).1.temp } := by
  unfold addTemporaryItem
  split
  · exact Or.inl rfl
  · exact Or.inr rfl

theorem addTemporaryItem_counter (m : CItem) (db : GeometryDatabase) :
    (addTemporaryItem m db).1.counter = db.counter := by
  rcases addTemporaryItem_state m db with h | h <;> rw [h]

theorem tempCommit_counter (mesh : VItem) (m : CItem) (db : GeometryDatabase) :
    (tempCommit mesh m db).1.counter = db.counter + 1 := by
  unfold tempCommit
  rw [addItem_counter]

end GeometryDatabase

namespace GeometryDatabase

/-- A public operation on one store instance.  `addTempCancel` /
`addTempCommit` are `addTemporaryItem` followed by the temporary object's
`cancel()` / `commit()`; `save` stores the produced memento in the
caller's hands and `restore i` replays the `i`-th saved memento. -/
inductive Op where
  | add (m : CItem)
  | addTempCancel (m : CItem)
  | addTempCommit (m : CItem)
  | remove (v : VItem)
  | hideOp (v : VItem)
  | unhideOp (v : VItem)
  | save
  | restore (i : Nat)

/-- A store together with the mementos handed out so far. -/
structure Sys where
  db : GeometryDatabase
  saved : List GeometryMemento

/-- The fresh store with no saved mementos. -/
def initSys : Sys := ⟨init, []⟩

/-- One public operation step. -/
def step (s : Sys) : Op → Sys
  | .add m => { s with db := (addItem m s.db).1 }
  | .addTempCancel m =>
    match addTemporaryItem m s.db with
    | (db1, .ok mesh) => { s with db := tempCancel mesh db1 }
    | (db1, .error _) => { s with db := db1 }
  | .addTempCommit m =>
    match addTemporaryItem m s.db with
    | (db1, .ok mesh) => { s with db := (tempCommit mesh m db1).1 }
    | (db1, .error _) => { s with db := db1 }
  | .remove v => { s with db := removeItem v s.db }
  | .hideOp v => { s with db := hide v s.db }
  | .unhideOp v => { s with db := unhide v s.db }
  | .save =>
    ⟨(saveToMemento s.db).2, s.saved ++ [(saveToMemento s.db).1]⟩
  | .restore i =>
    match s.saved.get? i with
    | some m => { s with db := restoreFromMemento m s.db }
    | none => s

/-- Run a sequence of public operations. -/
def run (s : Sys) : List Op → Sys
  | [] => s
  | op :: rest => run (step s op) rest

/-- The identities assigned by the successful `addItem` invocations an
operation performs (directly or through a temporary object's commit). -/
def opIds (s : Sys) : Op → List Nat
  | .add m =>
    match (addItem m s.db).2 with
    | .ok _ => [s.db.counter]
    | .error _ => []
  | .addTempCommit m =>
    match addTemporaryItem m s.db with
    | (db1, .ok mesh) =>
      match (tempCommit mesh m db1).2 with
      | .ok _ => [db1.counter]
      | .error _ => []
    | (_, .error _) => []
  | _ => []

/-- All identities assigned along a trace, in call order. -/
def traceIds (s : Sys) : List Op → List Nat
  | [] => []
  | op :: rest => opIds s op ++ traceIds (step s op) rest

theorem removeItem_counter (v : VItem) (db : GeometryDatabase) :
    (removeItem v db).counter = db.counter := rfl

theorem step_counter (s : Sys) (op : Op) :
    s.db.counter ≤ (step s op).db.counter := by
  cases op with
  | add m =>
    have := addItem_counter m s.db
    simp only [step]
    omega
  | addTempCancel m =>
    simp only [step]
    split
    · rename_i db1 mesh heq
      have h1 := addTemporaryItem_counter m s.db
      rw [heq] at h1
      simp only [tempCancel] at h1 ⊢
      omega
    · rename_i db1 e heq
      have h1 := addTemporaryItem_counter m s.db
      rw [heq] at h1
      simp only at h1 ⊢
      omega
  | addTempCommit m =>
    simp only [step]
    split
    · rename_i db1 mesh heq
      have h1 := addTemporaryItem_counter m s.db
      rw [heq] at h1
      have h2 := tempCommit_counter mesh m db1
      simp only at h1 ⊢
      omega
    · rename_i db1 e heq
      have h1 := addTemporaryItem_counter m s.db
      rw [heq] at h1
      simp only at h1 ⊢
      omega
  | remove v => exact Nat.le_refl _
  | hideOp v => exact Nat.le_refl _
  | unhideOp v => exact Nat.le_refl _
  | save => exact Nat.le_refl _
  | restore i =>
    simp only [step]
    split
    · exact Nat.le_refl _
    · exact Nat.le_refl _

theorem opIds_bound (s : Sys) (op : Op) :
    ∀ i ∈ opIds s op, s.db.counter ≤ i ∧ i < (step s op).db.counter := by
  cases op with
  | add m =>
    intro i hi
    simp only [opIds] at hi
    split at hi
    · simp only [List.mem_singleton] at hi
      subst hi
      have := addItem_counter m s.db
      simp only [step]
      omega
    · cases hi
  | addTempCommit m =>
    intro i hi
    simp only [opIds] at hi
    split at hi
    · rename_i db1 mesh heq
      split at hi
      · simp only [List.mem_singleton] at hi
        subst hi
        have h1 := addTemporaryItem_counter m s.db
        rw [heq] at h1
        simp only at h1
        have h2 := tempCommit_counter mesh m db1
        simp only [step, heq]
        omega
      · cases hi
    · cases hi
  | addTempCancel m => intro i hi; cases hi
  | remove v => intro i hi; cases hi
  | hideOp v => intro i hi; cases hi
  | unhideOp v => intro i hi; cases hi
  | save => intro i hi; cases hi
  | restore j => intro i hi; cases hi

theorem opIds_short (s : Sys) (op : Op) :
    opIds s op = [] ∨ ∃ n, opIds s op = [n] := by
  cases op with
  | add m =>
    simp only [opIds]
    split
    · exact Or.inr ⟨_, rfl⟩
    · exact Or.inl rfl
  | addTempCommit m =>
    simp only [opIds]
    split
    · split
      · exact Or.inr ⟨_, rfl⟩
      · exact Or.inl rfl
    · exact Or.inl rfl
  | addTempCancel m => exact Or.inl rfl
  | remove v => exact Or.inl rfl
  | hideOp v => exact Or.inl rfl
  | unhideOp v => exact Or.inl rfl
  | save => exact Or.inl rfl
  | restore i => exact Or.inl rfl

theorem traceIds_lb (ops : List Op) : ∀ (s : Sys) (i : Nat),
    i ∈ traceIds s ops → s.db.counter ≤ i := by
  induction ops with
  | nil => intro s i hi; cases hi
  | cons op rest ih =>
    intro s i hi
    rw [traceIds] at hi
    rcases List.mem_append.mp hi with h | h
    · exact (opIds_bound s op i h).1
    · exact Nat.le_trans (step_counter s op) (ih (step s op) i h)

/-- Claim C7: along any sequence of public operations on one store
instance, the identities assigned by successful `addItem` calls (including
those issued through a temporary object's `commit`) are strictly
increasing in call order — hence fresh, pairwise distinct, never reused
after a removal — and, being naturals, non-negative.  The identity counter
is never decreased by any operation (in particular `restoreFromMemento`
does not restore it), which is what makes reuse impossible. -/
theorem C7_ids_strictly_increasing (ops : List Op) (s : Sys) :
    (traceIds s ops).Pairwise (· < ·) ∧
    ∀ i ∈ traceIds s ops, (0 : Int) ≤ (i : Int) := by
  constructor
  · induction ops generalizing s with
    | nil => exact List.Pairwise.nil
    | cons op rest ih =>
      rw [traceIds]
      apply List.pairwise_append.mpr
      refine ⟨?_, ih (step s op), ?_⟩
      · rcases opIds_short s op with h | ⟨n, h⟩ <;> rw [h] <;> simp
      · intro a ha b hb
        have h1 := (opIds_bound s op a ha).2
        have h2 := traceIds_lb rest (step s op) b hb
        omega
  · intro i _
    exact Int.ofNat_nonneg i

end GeometryDatabase

namespace GeometryDatabase

/-- Well-formedness of a store state: the three live references point into
their heaps, and every live Topology Record's view set points into the
view-set heap with a parent identity below the counter (identities are only
handed out by the counter, so live records never refer to identities not
yet allocated). -/
def Inv3 (db : GeometryDatabase) : Prop :=
  db.gmRef < db.gmHeap.length ∧ db.tmRef < db.tmHeap.length ∧
  db.hsRef < db.hsHeap.length ∧
  ∀ p ∈ db.topologyModel,
    p.2.viewRef < db.vsHeap.length ∧ p.1.parent < (db.counter : Int)

instance (db : GeometryDatabase) : Decidable (Inv3 db) := by
  unfold Inv3
  infer_instance

theorem length_concat_set {α : Type} (l : List α) (v w : α) (i : Nat) :
    ((l ++ [v]).set i w).length = l.length + 1 := by
  simp

theorem addTopologyItem_vs (parent : CItem) (t : SubEntity) (db : GeometryDatabase)
    (c : Int) (W : Nat)
    (ht : t.simpleName.parent = c)
    (hW : W ≤ db.vsHeap.length)
    (hinv : ∀ p ∈ db.topologyModel,
      p.2.viewRef < db.vsHeap.length ∧ (p.1.parent = c → W ≤ p.2.viewRef)) :
    (∀ j, j < W →
      (addTopologyItem parent t db).1.vsHeap.getD j [] = db.vsHeap.getD j []) ∧
    (∀ p ∈ (addTopologyItem parent t db).1.topologyModel,
      (p.2.viewRef < (addTopologyItem parent t db).1.vsHeap.length ∧
        (p.1.parent = c → W ≤ p.2.viewRef)) ∧
      (p ∈ db.topologyModel ∨ p.1.parent = c)) := by
  unfold addTopologyItem
  split
  · exact ⟨fun j _ => rfl, fun p hp => ⟨hinv p hp, Or.inl hp⟩⟩
  · split
    · rename_i hnone
      constructor
      · intro j hj
        have hjlen : j < db.vsHeap.length := Nat.lt_of_lt_of_le hj hW
        simp only [setVS, setTM]
        rw [getD_set_ne _ _ _ _ _ (by omega), getD_append_lt _ _ _ _ hjlen]
      · intro p hp
        simp only [setVS, setTM, topologyModel] at hp
        rw [getD_set_same] at hp
        by_cases htm : db.tmRef < db.tmHeap.length
        · rw [if_pos htm] at hp
          simp only [setVS, setTM, topologyModel]
          rcases mem_mset hp with hold | hnew
          · have h1 := hinv p hold
            refine ⟨⟨?_, h1.2⟩, Or.inl hold⟩
            rw [length_concat_set]
            omega
          · subst hnew
            refine ⟨⟨?_, fun _ => hW⟩, Or.inr ht⟩
            rw [length_concat_set]
            simp only
            omega
        · rw [if_neg htm] at hp
          cases hp
    · rename_i td hsome
      have hmem := mem_of_mlookup_eq_some hsome
      have h1 := hinv _ hmem
      have hvr : W ≤ td.viewRef := h1.2 ht
      constructor
      · intro j hj
        simp only [setVS]
        exact getD_set_ne _ _ _ _ _ (by omega)
      · intro p hp
        simp only [setVS, topologyModel] at hp
        have h2 := hinv p hp
        simp only [setVS, List.length_set]
        exact ⟨⟨h2.1, h2.2⟩, Or.inl hp⟩

theorem addTopologyItems_vs (parent : CItem) (c : Int) (W : Nat) :
    ∀ (l : List SubEntity) (db : GeometryDatabase),
    (∀ t ∈ l, (SubEntity.simpleName t).parent = c) →
    W ≤ db.vsHeap.length →
    (∀ p ∈ db.topologyModel,
      p.2.viewRef < db.vsHeap.length ∧ (p.1.parent = c → W ≤ p.2.viewRef)) →
    (∀ j, j < W →
      (addTopologyItems parent l db).1.vsHeap.getD j [] = db.vsHeap.getD j []) ∧
    (∀ p ∈ (addTopologyItems parent l db).1.topologyModel,
      (p.2.viewRef < (addTopologyItems parent l db).1.vsHeap.length ∧
        (p.1.parent = c → W ≤ p.2.viewRef)) ∧
      (p ∈ db.topologyModel ∨ p.1.parent = c)) := by
  intro l
  induction l with
  | nil =>
    intro db _ _ hinv
    exact ⟨fun j _ => rfl, fun p hp => ⟨hinv p hp, Or.inl hp⟩⟩
  | cons t rest ih =>
    intro db hts hW hinv
    have h1 := addTopologyItem_vs parent t db c W (hts t (List.mem_cons_self _ _)) hW hinv
    have hsh := addTopologyItem_shape parent t db
    rw [addTopologyItems]
    cases hstep : addTopologyItem parent t db with
    | mk db' r =>
      rw [hstep] at h1 hsh
      simp only at h1 hsh
      have hW' : W ≤ db'.vsHeap.length := Nat.le_trans hW hsh.2.2.2.2.2.2.2.2.2
      cases r with
      | ok u =>
        have h2 := ih db' (fun q hq => hts q (List.mem_cons_of_mem _ hq)) hW'
          (fun p hp => (h1.2 p hp).1)
        simp only
        constructor
        · intro j hj
          exact (h2.1 j hj).trans (h1.1 j hj)
        · intro p hp
          refine ⟨(h2.2 p hp).1, ?_⟩
          rcases (h2.2 p hp).2 with hin | hc
          · rcases (h1.2 p hin).2 with hin2 | hc2
            · exact Or.inl hin2
            · exact Or.inr hc2
          · exact Or.inr hc
      | error e =>
        exact ⟨h1.1, h1.2⟩

theorem buildLevels_mem {α : Type} (f : Rat × Rat → Except String α) :
    ∀ (l : List (Rat × Rat)) (ys : List α), buildLevels f l = .ok ys →
      ∀ y ∈ ys, ∃ x ∈ l, f x = .ok y := by
  intro l
  induction l with
  | nil =>
    intro ys h y hy
    cases h
    cases hy
  | cons pr rest ih =>
    intro ys h y hy
    rw [buildLevels] at h
    cases hf : f pr with
    | error e => rw [hf] at h; cases h
    | ok x =>
      rw [hf] at h
      cases hr : buildLevels f rest with
      | error e => rw [hr] at h; cases h
      | ok xs =>
        rw [hr] at h
        cases h
        rcases List.mem_cons.mp hy with rfl | hy'
        · exact ⟨pr, List.mem_cons_self _ _, hf⟩
        · obtain ⟨q, hq, hfq⟩ := ih xs hr y hy'
          exact ⟨q, List.mem_cons_of_mem _ hq, hfq⟩

theorem meshes_solid_subEntities (obj : CItem) (id : Int) (pd : List (Rat × Rat))
    (v : VItem) (h : meshes obj id pd = .ok v) :
    ∀ t ∈ v.subEntities, (SubEntity.simpleName t).parent = id := by
  unfold meshes at h
  split at h
  · split at h
    · cases h
    · cases h
      intro t ht
      cases ht
  · split at h
    · cases h
    · cases h
      intro t ht
      cases ht
  · rename_i hsolid
    cases hb : buildLevels (fun pr => solidLevel obj id pr.1 pr.2) pd with
    | error e => rw [hb] at h; cases h
    | ok lods =>
      rw [hb] at h
      cases h
      intro t ht
      simp only [VItem.subEntities] at ht
      obtain ⟨lod, hlod, hmem⟩ := List.mem_flatMap.mp ht
      obtain ⟨pr, _, hpr⟩ := buildLevels_mem _ pd lods hb lod hlod
      unfold solidLevel at hpr
      cases hm : obj.createMesh pr.1 with
      | error e => rw [hm] at hpr; cases hpr
      | ok mesh =>
        rw [hm] at hpr
        cases hpr
        rcases List.mem_append.mp hmem with he | hf
        · obtain ⟨e, _, rfl⟩ := List.mem_map.mp he
          obtain ⟨q, _, rfl⟩ := List.mem_map.mp ‹e ∈ _›
          rfl
        · obtain ⟨f, _, rfl⟩ := List.mem_map.mp hf
          obtain ⟨q, _, rfl⟩ := List.mem_map.mp ‹f ∈ _›
          rfl
  · cases h

end GeometryDatabase

namespace GeometryDatabase

/-- Frame relation between two states: references and heap sizes for the
three collection heaps are unchanged, every collection heap cell other
than the live one is untouched, the view-set heap only grows, and every
view-set cell below the watermark `W` is untouched. -/
structure MutFrame (db db' : GeometryDatabase) (W : Nat) : Prop where
  gmRef_eq : db'.gmRef = db.gmRef
  tmRef_eq : db'.tmRef = db.tmRef
  hsRef_eq : db'.hsRef = db.hsRef
  gmLen : db'.gmHeap.length = db.gmHeap.length
  tmLen : db'.tmHeap.length = db.tmHeap.length
  hsLen : db'.hsHeap.length = db.hsHeap.length
  vsLen : db.vsHeap.length ≤ db'.vsHeap.length
  gmCell : ∀ a, a ≠ db.gmRef → db'.gmHeap.getD a [] = db.gmHeap.getD a []
  tmCell : ∀ a, a ≠ db.tmRef → db'.tmHeap.getD a [] = db.tmHeap.getD a []
  hsCell : ∀ a, a ≠ db.hsRef → db'.hsHeap.getD a [] = db.hsHeap.getD a []
  vsCell : ∀ j, j < W → db'.vsHeap.getD j [] = db.vsHeap.getD j []

theorem mutFrame_rfl (db : GeometryDatabase) (W : Nat) : MutFrame db db W :=
  ⟨rfl, rfl, rfl, rfl, rfl, rfl, Nat.le_refl _, fun _ _ => rfl, fun _ _ => rfl,
    fun _ _ => rfl, fun _ _ => rfl⟩

theorem MutFrame.trans {db1 db2 db3 : GeometryDatabase} {W : Nat}
    (h1 : MutFrame db1 db2 W) (h2 : MutFrame db2 db3 W) : MutFrame db1 db3 W := by
  refine ⟨h2.gmRef_eq.trans h1.gmRef_eq, h2.tmRef_eq.trans h1.tmRef_eq,
    h2.hsRef_eq.trans h1.hsRef_eq, h2.gmLen.trans h1.gmLen, h2.tmLen.trans h1.tmLen,
    h2.hsLen.trans h1.hsLen, Nat.le_trans h1.vsLen h2.vsLen, ?_, ?_, ?_, ?_⟩
  · intro a ha
    exact (h2.gmCell a (by rw [h1.gmRef_eq]; exact ha)).trans (h1.gmCell a ha)
  · intro a ha
    exact (h2.tmCell a (by rw [h1.tmRef_eq]; exact ha)).trans (h1.tmCell a ha)
  · intro a ha
    exact (h2.hsCell a (by rw [h1.hsRef_eq]; exact ha)).trans (h1.hsCell a ha)
  · intro j hj
    exact (h2.vsCell j hj).trans (h1.vsCell j hj)

/-- The mutating operations of claim C3: `addItem`, `removeItem`, `hide`,
`unhide` (with `addTopologyItem` reached through `addItem`). -/
def isMut : Op → Bool
  | .add _ => true
  | .remove _ => true
  | .hideOp _ => true
  | .unhideOp _ => true
  | _ => false

/-- A mutating operation applied directly to a store. -/
def mutStep (db : GeometryDatabase) : Op → GeometryDatabase
  | .add m => (addItem m db).1
  | .remove v => removeItem v db
  | .hideOp v => hide v db
  | .unhideOp v => unhide v db
  | _ => db

/-- A sequence of mutating operations. -/
def runMut (db : GeometryDatabase) : List Op → GeometryDatabase
  | [] => db
  | op :: rest => runMut (mutStep db op) rest

theorem getD_set_same_sub {β : Type} (l : List (List β)) (i : Nat) (v : List β) :
    ∀ q ∈ (l.set i v).getD i [], q ∈ v := by
  intro q hq
  rw [getD_set_same] at hq
  by_cases h : i < l.length
  · rw [if_pos h] at hq
    exact hq
  · rw [if_neg h] at hq
    cases hq

theorem fold_mdelete_sub (l : List SubEntity) :
    ∀ (tm : TMap) (p : TKey × TopologyData),
      p ∈ l.foldl (fun tm o => mdelete tm o.simpleName) tm → p ∈ tm := by
  induction l with
  | nil => intro tm p hp; exact hp
  | cons t rest ih =>
    intro tm p hp
    exact mem_of_mem_mdelete (ih _ p hp)

theorem removeItem_frame (v : VItem) (db : GeometryDatabase) (W : Nat)
    (hinv : Inv3 db) (hW : W ≤ db.vsHeap.length) :
    MutFrame db (removeItem v db) W ∧ Inv3 (removeItem v db) := by
  obtain ⟨hg, ht, hh, he⟩ := hinv
  constructor
  · refine ⟨rfl, rfl, rfl, by simp [removeItem, removeTopologyItems, setGM, setTM, setHS],
      by simp [removeItem, removeTopologyItems, setGM, setTM, setHS],
      by simp [removeItem, removeTopologyItems, setGM, setTM, setHS],
      Nat.le_refl _, ?_, ?_, ?_, fun j _ => rfl⟩
    · intro a ha
      simp only [removeItem, removeTopologyItems, setGM, setTM, setHS]
      exact getD_set_ne _ _ _ _ _ (fun hx => ha hx.symm)
    · intro a ha
      simp only [removeItem, removeTopologyItems, setGM, setTM, setHS]
      exact getD_set_ne _ _ _ _ _ (fun hx => ha hx.symm)
    · intro a ha
      simp only [removeItem, removeTopologyItems, setGM, setTM, setHS]
      exact getD_set_ne _ _ _ _ _ (fun hx => ha hx.symm)
  · refine ⟨by simpa [removeItem, removeTopologyItems, setGM, setTM, setHS] using hg,
      by simpa [removeItem, removeTopologyItems, setGM, setTM, setHS] using ht,
      by simpa [removeItem, removeTopologyItems, setGM, setTM, setHS] using hh, ?_⟩
    intro p hp
    simp only [removeItem, removeTopologyItems, setGM, setTM, setHS, topologyModel,
      geometryModel, hidden] at hp
    have hp2 := getD_set_same_sub _ _ _ p hp
    have hsub := fold_mdelete_sub _ _ _ hp2
    exact he p hsub

theorem hide_frame (v : VItem) (db : GeometryDatabase) (W : Nat)
    (hinv : Inv3 db) (hW : W ≤ db.vsHeap.length) :
    MutFrame db (hide v db) W ∧ Inv3 (hide v db) := by
  obtain ⟨hg, ht, hh, he⟩ := hinv
  constructor
  · refine ⟨rfl, rfl, rfl, by simp [hide, setHS], by simp [hide, setHS],
      by simp [hide, setHS], Nat.le_refl _, fun a _ => rfl, fun a _ => rfl, ?_,
      fun j _ => rfl⟩
    intro a ha
    simp only [hide, setHS]
    exact getD_set_ne _ _ _ _ _ (fun hx => ha hx.symm)
  · exact ⟨by simpa [hide, setHS] using hg, by simpa [hide, setHS] using ht,
      by simpa [hide, setHS] using hh, fun p hp => he p hp⟩

theorem unhide_frame (v : VItem) (db : GeometryDatabase) (W : Nat)
    (hinv : Inv3 db) (hW : W ≤ db.vsHeap.length) :
    MutFrame db (unhide v db) W ∧ Inv3 (unhide v db) := by
  obtain ⟨hg, ht, hh, he⟩ := hinv
  constructor
  · refine ⟨rfl, rfl, rfl, by simp [unhide, setHS], by simp [unhide, setHS],
      by simp [unhide, setHS], Nat.le_refl _, fun a _ => rfl, fun a _ => rfl, ?_,
      fun j _ => rfl⟩
    intro a ha
    simp only [unhide, setHS]
    exact getD_set_ne _ _ _ _ _ (fun hx => ha hx.symm)
  · exact ⟨by simpa [unhide, setHS] using hg, by simpa [unhide, setHS] using ht,
      by simpa [unhide, setHS] using hh, fun p hp => he p hp⟩

end GeometryDatabase

namespace GeometryDatabase

theorem addTopologyItems_shape_eq (parent : CItem) (l : List SubEntity)
    (db0 : GeometryDatabase) {pr : GeometryDatabase × Except String Unit}
    (h : addTopologyItems parent l db0 = pr) :
    pr.1.gmHeap = db0.gmHeap ∧ pr.1.hsHeap = db0.hsHeap ∧ pr.1.temp = db0.temp ∧
    pr.1.gmRef = db0.gmRef ∧ pr.1.tmRef = db0.tmRef ∧ pr.1.hsRef = db0.hsRef ∧
    pr.1.counter = db0.counter ∧ pr.1.tmHeap.length = db0.tmHeap.length ∧
    (∀ a, a ≠ db0.tmRef → pr.1.tmHeap.getD a [] = db0.tmHeap.getD a []) ∧
    db0.vsHeap.length ≤ pr.1.vsHeap.length := by
  rw [← h]
  exact addTopologyItems_shape parent l db0

theorem addTopologyItems_vs_eq (parent : CItem) (c : Int) (W : Nat)
    (l : List SubEntity) (db0 : GeometryDatabase)
    {pr : GeometryDatabase × Except String Unit}
    (h : addTopologyItems parent l db0 = pr)
    (hts : ∀ t ∈ l, (SubEntity.simpleName t).parent = c)
    (hW : W ≤ db0.vsHeap.length)
    (hinv : ∀ p ∈ db0.topologyModel,
      p.2.viewRef < db0.vsHeap.length ∧ (p.1.parent = c → W ≤ p.2.viewRef)) :
    (∀ j, j < W → pr.1.vsHeap.getD j [] = db0.vsHeap.getD j []) ∧
    (∀ p ∈ pr.1.topologyModel,
      (p.2.viewRef < pr.1.vsHeap.length ∧ (p.1.parent = c → W ≤ p.2.viewRef)) ∧
      (p ∈ db0.topologyModel ∨ p.1.parent = c)) := by
  rw [← h]
  exact addTopologyItems_vs parent c W l db0 hts hW hinv

theorem addItem_frame_solid (m : CItem) (db db2 : GeometryDatabase) (W : Nat)
    (sub : List SubEntity) {pr : GeometryDatabase × Except String Unit}
    (hsteps : addTopologyItems m sub db2 = pr)
    (hsub : ∀ t ∈ sub, (SubEntity.simpleName t).parent = (db.counter : Int))
    (e_tm : db2.tmHeap = db.tmHeap) (e_hs : db2.hsHeap = db.hsHeap)
    (e_vs : db2.vsHeap = db.vsHeap) (e_gmref : db2.gmRef = db.gmRef)
    (e_tmref : db2.tmRef = db.tmRef) (e_hsref : db2.hsRef = db.hsRef)
    (e_cnt : db2.counter = db.counter + 1)
    (e_gml : db2.gmHeap.length = db.gmHeap.length)
    (e_gmc : ∀ a, a ≠ db.gmRef → db2.gmHeap.getD a [] = db.gmHeap.getD a [])
    (hg : db.gmRef < db.gmHeap.length) (ht : db.tmRef < db.tmHeap.length)
    (hh : db.hsRef < db.hsHeap.length)
    (he : ∀ p ∈ db.topologyModel,
      p.2.viewRef < db.vsHeap.length ∧ p.1.parent < (db.counter : Int))
    (hW : W ≤ db.vsHeap.length) :
    MutFrame db pr.1 W ∧ Inv3 pr.1 := by
  have e_topm : db2.topologyModel = db.topologyModel := by
    rw [topologyModel, e_tm, e_tmref]
    rfl
  have hW2 : W ≤ db2.vsHeap.length := by rw [e_vs]; exact hW
  have hinv2 : ∀ p ∈ db2.topologyModel,
      p.2.viewRef < db2.vsHeap.length ∧
      (p.1.parent = (db.counter : Int) → W ≤ p.2.viewRef) := by
    rw [e_topm, e_vs]
    intro p hp
    refine ⟨(he p hp).1, fun hpc => absurd hpc ?_⟩
    have := (he p hp).2
    omega
  have shape := addTopologyItems_shape_eq m sub db2 hsteps
  have vs := addTopologyItems_vs_eq m (db.counter : Int) W sub db2 hsteps hsub hW2 hinv2
  obtain ⟨s1, s2, s3, s4, s5, s6, s7, s8, s9, s10⟩ := shape
  have frame : MutFrame db pr.1 W := by
    refine ⟨s4.trans e_gmref, s5.trans e_tmref, s6.trans e_hsref, ?_, ?_, ?_, ?_, ?_, ?_, ?_, ?_⟩
    · rw [s1, e_gml]
    · rw [s8, e_tm]
    · rw [s2, e_hs]
    · rw [← e_vs]
      exact s10
    · intro a ha
      rw [s1]
      exact e_gmc a ha
    · intro a ha
      have := s9 a (by rw [e_tmref]; exact ha)
      rw [this, e_tm]
    · intro a _
      rw [s2, e_hs]
    · intro j hj
      have := (vs.1 j hj)
      rw [this, e_vs]
  refine ⟨frame, ?_, ?_, ?_, ?_⟩
  · rw [frame.gmRef_eq, frame.gmLen]
    exact hg
  · rw [frame.tmRef_eq, frame.tmLen]
    exact ht
  · rw [frame.hsRef_eq, frame.hsLen]
    exact hh
  · intro p hp
    have hv := vs.2 p hp
    refine ⟨hv.1.1, ?_⟩
    have hcnt : pr.1.counter = db.counter + 1 := s7.trans e_cnt
    rw [hcnt]
    rcases hv.2 with hin | hc
    · rw [e_topm] at hin
      have := (he p hin).2
      omega
    · omega

theorem addItem_frame (m : CItem) (db : GeometryDatabase) (W : Nat)
    (hinv : Inv3 db) (hW : W ≤ db.vsHeap.length) :
    MutFrame db (addItem m db).1 W ∧ Inv3 (addItem m db).1 := by
  obtain ⟨hg, ht, hh, he⟩ := hinv
  simp only [addItem]
  split
  · refine ⟨⟨rfl, rfl, rfl, rfl, rfl, rfl, Nat.le_refl _, fun a _ => rfl, fun a _ => rfl,
      fun a _ => rfl, fun j _ => rfl⟩, hg, ht, hh, ?_⟩
    intro p hp
    refine ⟨(he p hp).1, ?_⟩
    have h2 := (he p hp).2
    simp only
    omega
  · rename_i view heq
    have hsub := meshes_solid_subEntities m (db.counter : Int) precision_distance view heq
    split
    · rename_i sn lods
      split
      · rename_i db3 u hsteps
        exact addItem_frame_solid m db _ W _ hsteps hsub rfl rfl rfl rfl rfl rfl rfl
          (by simp [setGM]) (fun a ha => by simp only [setGM]; exact getD_set_ne _ _ _ _ _ (fun hx => ha hx.symm))
          hg ht hh he hW
      · rename_i db3 e hsteps
        exact addItem_frame_solid m db _ W _ hsteps hsub rfl rfl rfl rfl rfl rfl rfl
          (by simp [setGM]) (fun a ha => by simp only [setGM]; exact getD_set_ne _ _ _ _ _ (fun hx => ha hx.symm))
          hg ht hh he hW
    · refine ⟨⟨rfl, rfl, rfl, by simp [setGM], rfl, rfl, Nat.le_refl _, ?_, fun a _ => rfl,
        fun a _ => rfl, fun j _ => rfl⟩, ?_, ht, hh, ?_⟩
      · intro a ha
        simp only [setGM]
        exact getD_set_ne _ _ _ _ _ (fun hx => ha hx.symm)
      · simpa [setGM] using hg
      · intro p hp
        simp only [setGM, topologyModel] at hp
        refine ⟨(he p hp).1, ?_⟩
        have h2 := (he p hp).2
        simp only [setGM]
        omega

end GeometryDatabase

namespace GeometryDatabase

theorem mutStep_frame (db : GeometryDatabase) (op : Op) (W : Nat)
    (hmut : isMut op = true) (hinv : Inv3 db) (hW : W ≤ db.vsHeap.length) :
    MutFrame db (mutStep db op) W ∧ Inv3 (mutStep db op) := by
  cases op with
  | add m => exact addItem_frame m db W hinv hW
  | remove v => exact removeItem_frame v db W hinv hW
  | hideOp v => exact hide_frame v db W hinv hW
  | unhideOp v => exact unhide_frame v db W hinv hW
  | addTempCancel m => simp [isMut] at hmut
  | addTempCommit m => simp [isMut] at hmut
  | save => simp [isMut] at hmut
  | restore i => simp [isMut] at hmut

theorem runMut_frame (ops : List Op) : ∀ (db : GeometryDatabase) (W : Nat),
    (∀ op ∈ ops, isMut op = true) → Inv3 db → W ≤ db.vsHeap.length →
    MutFrame db (runMut db ops) W ∧ Inv3 (runMut db ops) := by
  induction ops with
  | nil =>
    intro db W _ hinv _
    exact ⟨mutFrame_rfl db W, hinv⟩
  | cons op rest ih =>
    intro db W hmut hinv hW
    have h1 := mutStep_frame db op W (hmut op (List.mem_cons_self _ _)) hinv hW
    have hW2 : W ≤ (mutStep db op).vsHeap.length := Nat.le_trans hW h1.1.vsLen
    have h2 := ih (mutStep db op) W (fun q hq => hmut q (List.mem_cons_of_mem _ hq)) h1.2 hW2
    rw [runMut]
    exact ⟨h1.1.trans h2.1, h2.2⟩

theorem saveToMemento_inv (db : GeometryDatabase) (h : Inv3 db) :
    Inv3 (saveToMemento db).2 := by
  obtain ⟨hg, ht, hh, he⟩ := h
  refine ⟨?_, ?_, ?_, ?_⟩
  · simp only [saveToMemento, List.length_append]
    omega
  · simp only [saveToMemento, List.length_append]
    omega
  · simp only [saveToMemento, List.length_append]
    omega
  · intro p hp
    simp only [saveToMemento, topologyModel] at hp
    rw [getD_append_lt _ _ _ _ ht] at hp
    exact he p hp

/-- Claim C3 amended, isolation half: after `saveToMemento`, any sequence
of the mutating operations (`addItem` with its `addTopologyItem` walk,
`removeItem`, `hide`, `unhide`) leaves the snapshot's observed contents —
its item map, its topology map including each record's view-set contents,
and its hidden set — unchanged.  (The other half of the original claim is
false: see the counterexample — `restoreFromMemento` aliases.) -/
theorem C3_snapshot_isolated (db : GeometryDatabase) (ops : List Op)
    (hinv : Inv3 db) (hmut : ∀ op ∈ ops, isMut op = true) :
    obsItems (runMut (saveToMemento db).2 ops) (saveToMemento db).1 =
      obsItems (saveToMemento db).2 (saveToMemento db).1 ∧
    obsTopo (runMut (saveToMemento db).2 ops) (saveToMemento db).1 =
      obsTopo (saveToMemento db).2 (saveToMemento db).1 ∧
    obsHidden (runMut (saveToMemento db).2 ops) (saveToMemento db).1 =
      obsHidden (saveToMemento db).2 (saveToMemento db).1 := by
  have hinv1 := saveToMemento_inv db hinv
  obtain ⟨hg, ht, hh, he⟩ := hinv
  have hframe := runMut_frame ops (saveToMemento db).2 db.vsHeap.length hmut hinv1
    (Nat.le_refl _)
  refine ⟨?_, ?_, ?_⟩
  · exact hframe.1.gmCell _ (show db.gmHeap.length ≠ db.gmRef by omega)
  · rw [obsTopo, obsTopo]
    have hcell : (runMut (saveToMemento db).2 ops).tmHeap.getD
        (saveToMemento db).1.tmRef [] =
        (saveToMemento db).2.tmHeap.getD (saveToMemento db).1.tmRef [] :=
      hframe.1.tmCell _ (show db.tmHeap.length ≠ db.tmRef by omega)
    rw [hcell]
    have hcell1 : (saveToMemento db).2.tmHeap.getD (saveToMemento db).1.tmRef [] =
        db.topologyModel := getD_concat _ _ _
    rw [hcell1]
    apply List.map_eq_map_iff.mpr
    intro p hp
    have hv := hframe.1.vsCell p.2.viewRef (he p hp).1
    rw [hv]
  · exact hframe.1.hsCell _ (show db.hsHeap.length ≠ db.hsRef by omega)

/-- Claim C3 counterexample, aliasing half: `restoreFromMemento` installs
the memento's collections without copying, so a mutation after a restore
changes the memento's observed contents.  On the fresh store: save, restore
the produced memento, then hide an identity-5 item — the memento's observed
hidden set changes from empty to `[5]`. -/
theorem C3_restore_alias_counterexample :
    obsHidden
        (hide (VItem.solid 5 [])
          (restoreFromMemento (saveToMemento init).1 (saveToMemento init).2))
        (saveToMemento init).1 ≠
      obsHidden (restoreFromMemento (saveToMemento init).1 (saveToMemento init).2)
        (saveToMemento init).1 := by
  decide

/-- Witness for `C3_snapshot_isolated`: snapshotting the fresh store and
then hiding an identity-5 item leaves the snapshot's observed contents
unchanged. -/
theorem C3_snapshot_isolated_witness :
    obsItems (runMut (saveToMemento init).2 [Op.hideOp (VItem.solid 5 [])])
        (saveToMemento init).1 =
      obsItems (saveToMemento init).2 (saveToMemento init).1 ∧
    obsTopo (runMut (saveToMemento init).2 [Op.hideOp (VItem.solid 5 [])])
        (saveToMemento init).1 =
      obsTopo (saveToMemento init).2 (saveToMemento init).1 ∧
    obsHidden (runMut (saveToMemento init).2 [Op.hideOp (VItem.solid 5 [])])
        (saveToMemento init).1 =
      obsHidden (saveToMemento init).2 (saveToMemento init).1 :=
  C3_snapshot_isolated init [Op.hideOp (VItem.solid 5 [])] (by decide)
    (by intro op hop; simp only [List.mem_singleton] at hop; subst hop; rfl)

end GeometryDatabase

namespace GeometryDatabase

/-- States related by an operation that at most inserts into the live Item
Record map and never touches the hidden-set heap. -/
def GmHsFrame (db db' : GeometryDatabase) : Prop :=
  db'.hsHeap = db.hsHeap ∧ db'.gmRef = db.gmRef ∧ db'.hsRef = db.hsRef ∧
  db'.gmHeap.length = db.gmHeap.length ∧
  (∀ a, a ≠ db.gmRef → db'.gmHeap.getD a [] = db.gmHeap.getD a []) ∧
  (∀ k, k ∈ mkeys (db.gmHeap.getD db.gmRef []) →
    k ∈ mkeys (db'.gmHeap.getD db.gmRef []))

theorem gmHsFrame_rfl (db : GeometryDatabase) : GmHsFrame db db :=
  ⟨rfl, rfl, rfl, rfl, fun _ _ => rfl, fun _ h => h⟩

theorem addItem_gmhs (m : CItem) (db : GeometryDatabase) :
    GmHsFrame db (addItem m db).1 := by
  simp only [addItem]
  split
  · exact gmHsFrame_rfl _
  · rename_i view heq
    have base : ∀ (g : GMap),
        GmHsFrame db (setGM { db with counter := db.counter + 1 }
          (mset (geometryModel { db with counter := db.counter + 1 })
            ((db.counter : Nat) : Int) (view, m))) := by
      intro g
      refine ⟨rfl, rfl, rfl, by simp [setGM], ?_, ?_⟩
      · intro a ha
        simp only [setGM]
        exact getD_set_ne _ _ _ _ _ (fun hx => ha hx.symm)
      · intro k hk
        simp only [setGM]
        rw [getD_set_same]
        by_cases hlt : db.gmRef < db.gmHeap.length
        · rw [if_pos hlt]
          exact mem_keys_mset _ _ _ _ hk
        · rw [if_neg hlt]
          rw [getD_of_length_le _ _ _ (Nat.le_of_not_lt hlt)] at hk
          cases hk
    split
    · rename_i sn lods
      split
      · rename_i db3 u hsteps
        have hs := addTopologyItems_shape_eq m _ _ hsteps
        have hb := base []
        obtain ⟨s1, s2, _, s4, _, s6, _, _, _, _⟩ := hs
        obtain ⟨b1, b2, b3, b4, b5, b6⟩ := hb
        refine ⟨s2.trans b1, s4.trans b2, s6.trans b3, by rw [s1]; exact b4, ?_, ?_⟩
        · intro a ha
          rw [s1]
          exact b5 a ha
        · intro k hk
          rw [s1]
          exact b6 k hk
      · rename_i db3 e hsteps
        have hs := addTopologyItems_shape_eq m _ _ hsteps
        have hb := base []
        obtain ⟨s1, s2, _, s4, _, s6, _, _, _, _⟩ := hs
        obtain ⟨b1, b2, b3, b4, b5, b6⟩ := hb
        refine ⟨s2.trans b1, s4.trans b2, s6.trans b3, by rw [s1]; exact b4, ?_, ?_⟩
        · intro a ha
          rw [s1]
          exact b5 a ha
        · intro k hk
          rw [s1]
          exact b6 k hk
    · exact base []

theorem gmHsFrame_temp (db : GeometryDatabase) (t : List VItem) :
    GmHsFrame db { db with temp := t } :=
  ⟨rfl, rfl, rfl, rfl, fun _ _ => rfl, fun _ h => h⟩

theorem gmHsFrame_trans {db1 db2 db3 : GeometryDatabase}
    (h1 : GmHsFrame db1 db2) (h2 : GmHsFrame db2 db3) : GmHsFrame db1 db3 := by
  obtain ⟨a1, a2, a3, a4, a5, a6⟩ := h1
  obtain ⟨b1, b2, b3, b4, b5, b6⟩ := h2
  refine ⟨b1.trans a1, b2.trans a2, b3.trans a3, b4.trans a4, ?_, ?_⟩
  · intro a ha
    exact (b5 a (by rw [a2]; exact ha)).trans (a5 a ha)
  · intro k hk
    have h6 := a6 k hk
    have := b6 k (by rw [a2]; exact h6)
    rw [a2] at this
    exact this

/-- The store-state invariant behind claim C8, over a store plus the
mementos handed out: the live hidden set is a subset of the live item-map
keys; references are valid; each memento's observed hidden set is a subset
of its observed item-map keys; and reference triples never partially alias
(a memento shares the live gm-cell exactly when it shares the live
hs-cell, and likewise between any two mementos). -/
def Inv8 (s : Sys) : Prop :=
  (∀ h ∈ s.db.hidden, h ∈ mkeys s.db.geometryModel) ∧
  s.db.gmRef < s.db.gmHeap.length ∧ s.db.hsRef < s.db.hsHeap.length ∧
  (∀ m ∈ s.saved, m.gmRef < s.db.gmHeap.length ∧ m.hsRef < s.db.hsHeap.length ∧
    (∀ h ∈ s.db.hsHeap.getD m.hsRef [], h ∈ mkeys (s.db.gmHeap.getD m.gmRef [])) ∧
    ((m.gmRef = s.db.gmRef ∧ m.hsRef = s.db.hsRef) ∨
      (m.gmRef ≠ s.db.gmRef ∧ m.hsRef ≠ s.db.hsRef))) ∧
  (∀ m ∈ s.saved, ∀ m2 ∈ s.saved,
    (m.gmRef = m2.gmRef ∧ m.hsRef = m2.hsRef) ∨
      (m.gmRef ≠ m2.gmRef ∧ m.hsRef ≠ m2.hsRef))

instance (s : Sys) : Decidable (Inv8 s) := by
  unfold Inv8
  infer_instance

theorem inv8_of_gmhs {s : Sys} {db' : GeometryDatabase}
    (hinv : Inv8 s) (hf : GmHsFrame s.db db') : Inv8 ⟨db', s.saved⟩ := by
  obtain ⟨ha, hg, hh, hc, hd⟩ := hinv
  obtain ⟨f1, f2, f3, f4, f5, f6⟩ := hf
  refine ⟨?_, ?_, ?_, ?_, hd⟩
  · intro h hmem
    have hmem' : h ∈ s.db.hidden := by
      show h ∈ s.db.hsHeap.getD s.db.hsRef []
      rw [← f1, ← f3]
      exact hmem
    show h ∈ mkeys (db'.gmHeap.getD db'.gmRef [])
    rw [f2]
    exact f6 h (ha h hmem')
  · rw [f2, f4]
    exact hg
  · rw [f3, f1]
    exact hh
  · intro m hm
    obtain ⟨c1, c2, c3, c4⟩ := hc m hm
    refine ⟨by rw [f4]; exact c1, by rw [f1]; exact c2, ?_, ?_⟩
    · intro h hmem
      rw [f1] at hmem
      rcases c4 with ⟨e1, e2⟩ | ⟨e1, e2⟩
      · rw [e1]
        refine f6 h ?_
        rw [← e1]
        exact c3 h hmem
      · rw [f5 m.gmRef e1]
        exact c3 h hmem
    · rw [f2, f3]
      exact c4

end GeometryDatabase

namespace GeometryDatabase

theorem addTemporaryItem_gmhs (m : CItem) (db : GeometryDatabase) :
    GmHsFrame db (addTemporaryItem m db).1 := by
  rcases addTemporaryItem_state m db with h | h
  · rw [h]
    exact gmHsFrame_rfl _
  · rw [h]
    exact gmHsFrame_temp _ _

/-- Validity of one operation for the amended claim C8: `hide` is only
applied to an item currently present in the Item Record map. -/
def okOp (s : Sys) : Op → Bool
  | .hideOp v => decide (v.simpleName ∈ mkeys s.db.geometryModel)
  | _ => true

/-- Validity of a whole operation sequence for the amended claim C8. -/
def okOps (s : Sys) : List Op → Bool
  | [] => true
  | op :: rest => okOp s op && okOps (step s op) rest

theorem step_inv8 (s : Sys) (op : Op) (hok : okOp s op = true) (hinv : Inv8 s) :
    Inv8 (step s op) := by
  obtain ⟨ha, hg, hh, hc, hd⟩ := hinv
  cases op with
  | add m => exact inv8_of_gmhs ⟨ha, hg, hh, hc, hd⟩ (addItem_gmhs m s.db)
  | addTempCancel m =>
    simp only [step]
    split
    · rename_i db1 mesh heq
      have h1 := addTemporaryItem_gmhs m s.db
      rw [heq] at h1
      simp only at h1
      exact inv8_of_gmhs ⟨ha, hg, hh, hc, hd⟩ (gmHsFrame_trans h1 (gmHsFrame_temp _ _))
    · rename_i db1 e heq
      have h1 := addTemporaryItem_gmhs m s.db
      rw [heq] at h1
      simp only at h1
      exact inv8_of_gmhs ⟨ha, hg, hh, hc, hd⟩ h1
  | addTempCommit m =>
    simp only [step]
    split
    · rename_i db1 mesh heq
      have h1 := addTemporaryItem_gmhs m s.db
      rw [heq] at h1
      simp only at h1
      have h2 : GmHsFrame db1 (tempCommit mesh m db1).1 :=
        gmHsFrame_trans (gmHsFrame_temp db1 (db1.temp.erase mesh))
          (addItem_gmhs m { db1 with temp := db1.temp.erase mesh })
      exact inv8_of_gmhs ⟨ha, hg, hh, hc, hd⟩ (gmHsFrame_trans h1 h2)
    · rename_i db1 e heq
      have h1 := addTemporaryItem_gmhs m s.db
      rw [heq] at h1
      simp only at h1
      exact inv8_of_gmhs ⟨ha, hg, hh, hc, hd⟩ h1
  | remove v =>
    refine ⟨?_, ?_, ?_, ?_, hd⟩
    · intro h hmem
      have hmem' : h ∈ (s.db.hsHeap.set s.db.hsRef
          (sdelete (s.db.hsHeap.getD s.db.hsRef []) v.simpleName)).getD s.db.hsRef [] :=
        hmem
      obtain ⟨hin, hne⟩ := mem_of_mem_sdelete (getD_set_same_sub _ _ _ h hmem')
      show h ∈ mkeys ((s.db.gmHeap.set s.db.gmRef
        (mdelete (s.db.gmHeap.getD s.db.gmRef []) v.simpleName)).getD s.db.gmRef [])
      rw [getD_set_same, if_pos hg]
      exact mem_keys_mdelete _ _ _ (ha h hin) hne
    · show s.db.gmRef < (s.db.gmHeap.set s.db.gmRef
        (mdelete (s.db.gmHeap.getD s.db.gmRef []) v.simpleName)).length
      rw [List.length_set]
      exact hg
    · show s.db.hsRef < (s.db.hsHeap.set s.db.hsRef
        (sdelete (s.db.hsHeap.getD s.db.hsRef []) v.simpleName)).length
      rw [List.length_set]
      exact hh
    · intro m hm
      obtain ⟨c1, c2, c3, c4⟩ := hc m hm
      refine ⟨?_, ?_, ?_, c4⟩
      · show m.gmRef < (s.db.gmHeap.set s.db.gmRef
          (mdelete (s.db.gmHeap.getD s.db.gmRef []) v.simpleName)).length
        rw [List.length_set]
        exact c1
      · show m.hsRef < (s.db.hsHeap.set s.db.hsRef
          (sdelete (s.db.hsHeap.getD s.db.hsRef []) v.simpleName)).length
        rw [List.length_set]
        exact c2
      · intro h hmem
        have hmem' : h ∈ (s.db.hsHeap.set s.db.hsRef
            (sdelete (s.db.hsHeap.getD s.db.hsRef []) v.simpleName)).getD m.hsRef [] :=
          hmem
        show h ∈ mkeys ((s.db.gmHeap.set s.db.gmRef
          (mdelete (s.db.gmHeap.getD s.db.gmRef []) v.simpleName)).getD m.gmRef [])
        rcases c4 with ⟨e1, e2⟩ | ⟨e1, e2⟩
        · rw [e2] at hmem'
          obtain ⟨hin, hne⟩ := mem_of_mem_sdelete (getD_set_same_sub _ _ _ h hmem')
          rw [e1, getD_set_same, if_pos hg]
          exact mem_keys_mdelete _ _ _ (ha h hin) hne
        · rw [getD_set_ne _ _ _ _ _ (fun hx => e2 hx.symm)] at hmem'
          rw [getD_set_ne _ _ _ _ _ (fun hx => e1 hx.symm)]
          exact c3 h hmem'
  | hideOp v =>
    have hpres : v.simpleName ∈ mkeys s.db.geometryModel := of_decide_eq_true hok
    refine ⟨?_, hg, ?_, ?_, hd⟩
    · intro h hmem
      have hmem' : h ∈ (s.db.hsHeap.set s.db.hsRef
          (sadd (s.db.hsHeap.getD s.db.hsRef []) v.simpleName)).getD s.db.hsRef [] :=
        hmem
      have h2 := getD_set_same_sub _ _ _ h hmem'
      rcases (mem_sadd_iff _ _ _).mp h2 with hin | rfl
      · exact ha h hin
      · exact hpres
    · show s.db.hsRef < (s.db.hsHeap.set s.db.hsRef
        (sadd (s.db.hsHeap.getD s.db.hsRef []) v.simpleName)).length
      rw [List.length_set]
      exact hh
    · intro m hm
      obtain ⟨c1, c2, c3, c4⟩ := hc m hm
      refine ⟨c1, ?_, ?_, c4⟩
      · show m.hsRef < (s.db.hsHeap.set s.db.hsRef
          (sadd (s.db.hsHeap.getD s.db.hsRef []) v.simpleName)).length
        rw [List.length_set]
        exact c2
      · intro h hmem
        have hmem' : h ∈ (s.db.hsHeap.set s.db.hsRef
            (sadd (s.db.hsHeap.getD s.db.hsRef []) v.simpleName)).getD m.hsRef [] :=
          hmem
        rcases c4 with ⟨e1, e2⟩ | ⟨e1, e2⟩
        · rw [e2] at hmem'
          have h2 := getD_set_same_sub _ _ _ h hmem'
          rw [e1]
          rcases (mem_sadd_iff _ _ _).mp h2 with hin | rfl
          · exact ha h hin
          · exact hpres
        · rw [getD_set_ne _ _ _ _ _ (fun hx => e2 hx.symm)] at hmem'
          exact c3 h hmem'
  | unhideOp v =>
    refine ⟨?_, hg, ?_, ?_, hd⟩
    · intro h hmem
      have hmem' : h ∈ (s.db.hsHeap.set s.db.hsRef
          (sdelete (s.db.hsHeap.getD s.db.hsRef []) v.simpleName)).getD s.db.hsRef [] :=
        hmem
      obtain ⟨hin, _⟩ := mem_of_mem_sdelete (getD_set_same_sub _ _ _ h hmem')
      exact ha h hin
    · show s.db.hsRef < (s.db.hsHeap.set s.db.hsRef
        (sdelete (s.db.hsHeap.getD s.db.hsRef []) v.simpleName)).length
      rw [List.length_set]
      exact hh
    · intro m hm
      obtain ⟨c1, c2, c3, c4⟩ := hc m hm
      refine ⟨c1, ?_, ?_, c4⟩
      · show m.hsRef < (s.db.hsHeap.set s.db.hsRef
          (sdelete (s.db.hsHeap.getD s.db.hsRef []) v.simpleName)).length
        rw [List.length_set]
        exact c2
      · intro h hmem
        have hmem' : h ∈ (s.db.hsHeap.set s.db.hsRef
            (sdelete (s.db.hsHeap.getD s.db.hsRef []) v.simpleName)).getD m.hsRef [] :=
          hmem
        rcases c4 with ⟨e1, e2⟩ | ⟨e1, e2⟩
        · rw [e2] at hmem'
          obtain ⟨hin, _⟩ := mem_of_mem_sdelete (getD_set_same_sub _ _ _ h hmem')
          rw [e1]
          exact ha h hin
        · rw [getD_set_ne _ _ _ _ _ (fun hx => e2 hx.symm)] at hmem'
          exact c3 h hmem'
  | save =>
    refine ⟨?_, ?_, ?_, ?_, ?_⟩
    · intro h hmem
      have hmem' : h ∈ (s.db.hsHeap ++ [s.db.hidden]).getD s.db.hsRef [] := hmem
      rw [getD_append_lt _ _ _ _ hh] at hmem'
      show h ∈ mkeys ((s.db.gmHeap ++ [s.db.geometryModel]).getD s.db.gmRef [])
      rw [getD_append_lt _ _ _ _ hg]
      exact ha h hmem'
    · show s.db.gmRef < (s.db.gmHeap ++ [s.db.geometryModel]).length
      rw [List.length_append]
      simp only [List.length_singleton]
      omega
    · show s.db.hsRef < (s.db.hsHeap ++ [s.db.hidden]).length
      rw [List.length_append]
      simp only [List.length_singleton]
      omega
    · intro m hm
      rcases List.mem_append.mp hm with hold | hnew
      · obtain ⟨c1, c2, c3, c4⟩ := hc m hold
        refine ⟨?_, ?_, ?_, c4⟩
        · show m.gmRef < (s.db.gmHeap ++ [s.db.geometryModel]).length
          rw [List.length_append]
          omega
        · show m.hsRef < (s.db.hsHeap ++ [s.db.hidden]).length
          rw [List.length_append]
          omega
        · intro h hmem
          have hmem' : h ∈ (s.db.hsHeap ++ [s.db.hidden]).getD m.hsRef [] := hmem
          rw [getD_append_lt _ _ _ _ c2] at hmem'
          show h ∈ mkeys ((s.db.gmHeap ++ [s.db.geometryModel]).getD m.gmRef [])
          rw [getD_append_lt _ _ _ _ c1]
          exact c3 h hmem'
      · rw [List.mem_singleton] at hnew
        subst hnew
        refine ⟨?_, ?_, ?_, ?_⟩
        · show s.db.gmHeap.length < (s.db.gmHeap ++ [s.db.geometryModel]).length
          rw [List.length_append]
          simp only [List.length_singleton]
          omega
        · show s.db.hsHeap.length < (s.db.hsHeap ++ [s.db.hidden]).length
          rw [List.length_append]
          simp only [List.length_singleton]
          omega
        · intro h hmem
          have hmem' : h ∈ (s.db.hsHeap ++ [s.db.hidden]).getD s.db.hsHeap.length [] :=
            hmem
          rw [getD_concat] at hmem'
          show h ∈ mkeys ((s.db.gmHeap ++ [s.db.geometryModel]).getD s.db.gmHeap.length [])
          rw [getD_concat]
          exact ha h hmem'
        · right
          constructor
          · show s.db.gmHeap.length ≠ s.db.gmRef
            omega
          · show s.db.hsHeap.length ≠ s.db.hsRef
            omega
    · intro m hm m2 hm2
      rcases List.mem_append.mp hm with hold | hnew <;>
        rcases List.mem_append.mp hm2 with hold2 | hnew2
      · exact hd m hold m2 hold2
      · rw [List.mem_singleton] at hnew2
        subst hnew2
        obtain ⟨c1, c2, _, _⟩ := hc m hold
        right
        constructor
        · show m.gmRef ≠ s.db.gmHeap.length
          omega
        · show m.hsRef ≠ s.db.hsHeap.length
          omega
      · rw [List.mem_singleton] at hnew
        subst hnew
        obtain ⟨c1, c2, _, _⟩ := hc m2 hold2
        right
        constructor
        · show s.db.gmHeap.length ≠ m2.gmRef
          omega
        · show s.db.hsHeap.length ≠ m2.hsRef
          omega
      · rw [List.mem_singleton] at hnew
        rw [List.mem_singleton] at hnew2
        subst hnew
        subst hnew2
        left
        exact ⟨rfl, rfl⟩
  | restore i =>
    simp only [step]
    split
    · rename_i m0 hm0
      have hm0mem := List.get?_mem hm0
      obtain ⟨c1, c2, c3, c4⟩ := hc m0 hm0mem
      refine ⟨?_, c1, c2, ?_, hd⟩
      · intro h hmem
        exact c3 h hmem
      · intro m hm
        obtain ⟨d1, d2, d3, _⟩ := hc m hm
        exact ⟨d1, d2, d3, hd m hm m0 hm0mem⟩
    · exact ⟨ha, hg, hh, hc, hd⟩

theorem run_inv8 (ops : List Op) : ∀ s : Sys, okOps s ops = true → Inv8 s →
    Inv8 (run s ops) := by
  induction ops with
  | nil => intro s _ h; exact h
  | cons op rest ih =>
    intro s hok hinv
    rw [okOps, Bool.and_eq_true] at hok
    exact ih (step s op) hok.2 (step_inv8 s op hok.1 hinv)

end GeometryDatabase

namespace GeometryDatabase

/-- Claim C8 counterexample: the Hidden Set is not a subset of the Item
Record keys in every state reachable by public operations, because `hide`
performs no presence check.  Reachable violation: add a solid (identity 0),
remove it, then hide it — the Hidden Set is `[0]` while the Item Record
map is empty. -/
theorem C8_hidden_not_subset_counterexample :
    ¬ (∀ h ∈ (run initSys [Op.add solidTwoFaces, Op.remove (VItem.solid 0 []),
          Op.hideOp (VItem.solid 0 [])]).db.hidden,
        h ∈ mkeys (run initSys [Op.add solidTwoFaces, Op.remove (VItem.solid 0 []),
          Op.hideOp (VItem.solid 0 [])]).db.geometryModel) := by
  decide

/-- Claim C8 amended: in every state reachable by public operations in
which `hide` is only ever applied to an item currently present in the Item
Record map, the Hidden Set is a subset of the Item Record key set.
(`removeItem` deletes the hidden entry together with the record, `restore`
installs a snapshot that satisfied the invariant when taken, and no other
operation grows the Hidden Set.) -/
theorem C8_hidden_subset (ops : List Op) (hok : okOps initSys ops = true) :
    ∀ h ∈ (run initSys ops).db.hidden,
      h ∈ mkeys (run initSys ops).db.geometryModel :=
  (run_inv8 ops initSys hok (by decide)).1

/-- Witness for `C8_hidden_subset`: add a solid and hide it while present —
the hidden identity 0 is then among the Item Record keys. -/
theorem C8_hidden_subset_witness :
    (0 : Int) ∈ mkeys (run initSys
      [Op.add solidTwoFaces, Op.hideOp (VItem.solid 0 [])]).db.geometryModel :=
  C8_hidden_subset [Op.add solidTwoFaces, Op.hideOp (VItem.solid 0 [])] (by decide)
    0 (by decide)

end GeometryDatabase
